import Mathlib

/-!
Verification of the gencrypto compiler core against its specification.

This file gives a shallow embedding, in Lean, of the register model
(`regs.h` / `regs.cpp`), the instruction-record model (`insns.h` /
`insns.cpp`), the platform description (`platform.h` / `platform.cpp` /
`platform_arm.cpp`) and the code generator (`codegen.h` / `codegen.cpp`)
of the gencrypto repository, and proves or refutes the frozen claims
about them.

Modelling conventions:
* C++ machine integers become `Nat`; where a `uint64_t` computation can
  wrap, the value is masked with `&&& (2 ^ 64 - 1)` at the point where
  the C++ value would wrap.
* Functions that can throw a C++ exception return `Except String α`.
* Reading a `std::vector` out of bounds with `operator[]` is undefined
  behaviour in C++; it is modelled as an `Except.error`.
* Bounded `while` loops are modelled by structural recursion on an
  explicit fuel argument (`Option` result, `none` = fuel exhausted);
  the fuel passed by callers is proved sufficient.
-/

namespace gencrypto

/-- The sizes supported by a basic register (`BasicRegister::Size`).
The numeric values 8/16/32/64 double as bitmask members of the
`sizes` field, exactly as in the source. -/
inductive Size where
  | Size8
  | Size16
  | Size32
  | Size64
deriving DecidableEq, Repr

/-- Numeric value of a `Size` enumerator (`Size8 = 8`, ..., `Size64 = 64`). -/
def Size.toNat : Size → Nat
  | .Size8 => 8
  | .Size16 => 16
  | .Size32 => 32
  | .Size64 => 64

/-- `Size` cast from an integer (named `fromNat` because Lean generates `Size.ofNat` for enums) holding 8/16/32/64, as used by the C++
cast `(BasicRegister::Size)nsize` in `CodeGenerator::addArgument`. -/
def Size.fromNat (n : Nat) : Size :=
  if n = 8 then .Size8
  else if n = 16 then .Size16
  else if n = 32 then .Size32
  else .Size64

/-- A basic register of the platform (`BasicRegister`).  The C++ class is
a reference-counted copy-on-write value type (`BasicRegister::Private`);
since it has value semantics, it is modelled as a plain structure whose
fields are those of `BasicRegister::Private` (minus the reference count).
Defaults are the `Private()` constructor values. -/
structure BasicRegister where
  number : Nat := 255
  sizes : Nat := 8
  flags : Nat := 0
  name8 : String := ""
  name16 : String := ""
  name32 : String := ""
  name64 : String := ""
  addrName : String := ""
deriving DecidableEq, Repr

/-- `BasicRegister::TwoAddress` flag. -/
def BasicRegister.TwoAddress : Nat := 0x0001
/-- `BasicRegister::ThreeAddress` flag. -/
def BasicRegister.ThreeAddress : Nat := 0x0002
/-- `BasicRegister::StackPointer` flag. -/
def BasicRegister.StackPointer : Nat := 0x0004
/-- `BasicRegister::ProgramCounter` flag. -/
def BasicRegister.ProgramCounter : Nat := 0x0008
/-- `BasicRegister::Link` flag. -/
def BasicRegister.Link : Nat := 0x0010
/-- `BasicRegister::Address` flag. -/
def BasicRegister.Address : Nat := 0x0020
/-- `BasicRegister::Data` flag. -/
def BasicRegister.Data : Nat := 0x0040
/-- `BasicRegister::Storage` flag. -/
def BasicRegister.Storage : Nat := 0x0080
/-- `BasicRegister::SignExtend` flag. -/
def BasicRegister.SignExtend : Nat := 0x0100
/-- `BasicRegister::CalleeSaved` flag. -/
def BasicRegister.CalleeSaved : Nat := 0x0200
/-- `BasicRegister::Zero` flag. -/
def BasicRegister.Zero : Nat := 0x0400
/-- `BasicRegister::Temporary` flag. -/
def BasicRegister.Temporary : Nat := 0x0800
/-- `BasicRegister::NoAllocate` flag. -/
def BasicRegister.NoAllocate : Nat := 0x1000

/-- `BasicRegister::hasSize`: `(sizes & size) != 0`. -/
def BasicRegister.hasSize (b : BasicRegister) (s : Size) : Bool :=
  b.sizes &&& s.toNat != 0

/-- `BasicRegister::hasFlag`: `(flags & flag) == flag`. -/
def BasicRegister.hasFlag (b : BasicRegister) (f : Nat) : Bool :=
  b.flags &&& f == f

/-- `BasicRegister::isNull`: `number() == 255`. -/
def BasicRegister.isNull (b : BasicRegister) : Bool :=
  b.number == 255

/-- `BasicRegister::maxSize`. -/
def BasicRegister.maxSize (b : BasicRegister) : Size :=
  if b.hasSize .Size64 then .Size64
  else if b.hasSize .Size32 then .Size32
  else if b.hasSize .Size16 then .Size16
  else .Size8

/-- `BasicRegister::reg32`: a 32-bit-only register. -/
def BasicRegister.reg32 (number : Nat) (name : String) (flags : Nat) :
    BasicRegister :=
  { number := number, sizes := Size.Size32.toNat, flags := flags,
    name32 := name }

/-- `BasicRegister::reg64`: a 64-bit-only register. -/
def BasicRegister.reg64 (number : Nat) (name : String) (flags : Nat) :
    BasicRegister :=
  { number := number, sizes := Size.Size64.toNat, flags := flags,
    name64 := name }

/-- `BasicRegister::reg3264`: a register with 32-bit and 64-bit variants. -/
def BasicRegister.reg3264 (number : Nat) (name32 name64 : String)
    (flags : Nat) : BasicRegister :=
  { number := number, sizes := Size.Size32.toNat ||| Size.Size64.toNat,
    flags := flags, name32 := name32, name64 := name64 }

/-- A basic register decorated with its chosen size (`SizedRegister`). -/
structure SizedRegister where
  reg : BasicRegister := {}
  size : Size := .Size8
deriving DecidableEq, Repr

instance : Inhabited SizedRegister := ⟨{}⟩

/-- The checked `SizedRegister(reg, size)` constructor: throws when
`(size & reg.sizes()) != size`. -/
def SizedRegister.make (reg : BasicRegister) (size : Size) :
    Except String SizedRegister :=
  if size.toNat &&& reg.sizes != size.toNat then
    .error "register does not support the requested size"
  else
    .ok { reg := reg, size := size }

/-- `SizedRegister::number`. -/
def SizedRegister.number (sr : SizedRegister) : Nat := sr.reg.number

/-- `SizedRegister::operator==`: equal numbers and equal sizes. -/
def SizedRegister.eqOp (a b : SizedRegister) : Bool :=
  a.reg.number == b.reg.number && a.size == b.size

/-- A multi-limb virtual register (`Reg`), with its significant bit
count `size`, capacity `fullSize`, `zeroFill` flag and limb vector. -/
structure Reg where
  size : Nat := 0
  fullSize : Nat := 0
  zeroFill : Bool := true
  regs : List SizedRegister := []
deriving DecidableEq, Repr

/-- The default-constructed empty `Reg()`. -/
def Reg.empty : Reg := {}

/-- `Reg::isNull`: `m_size == 0`. -/
def Reg.isNull (r : Reg) : Bool := r.size == 0

/-- `Reg::numRegs`. -/
def Reg.numRegs (r : Reg) : Nat := r.regs.length

/-- `Reg::limbSize`: the size of the first limb, or zero when empty. -/
def Reg.limbSize (r : Reg) : Nat :=
  match r.regs with
  | [] => 0
  | sr :: _ => sr.size.toNat

/-- `Reg::setZeroFill`. -/
def Reg.setZeroFill (r : Reg) (zf : Bool) : Reg := { r with zeroFill := zf }

/-- `Reg::addRegister(const SizedRegister &)`: rejects duplicated
physical registers and mismatched limb sizes, then appends the limb and
grows `size` and `fullSize` by the limb size. -/
def Reg.addRegister (r : Reg) (sr : SizedRegister) : Except String Reg :=
  if r.regs.any (fun x => x.reg.number == sr.reg.number) then
    .error "register appears twice in a Reg instance"
  else if (match r.regs with
           | [] => false
           | x :: _ => x.size != sr.size) then
    .error "register is not the same size as other Reg members"
  else
    .ok { size := r.size + sr.size.toNat,
          fullSize := r.fullSize + sr.size.toNat,
          zeroFill := r.zeroFill,
          regs := r.regs ++ [sr] }

/-- `Reg::addRegister(const BasicRegister &, Size)`. -/
def Reg.addBasicRegister (r : Reg) (b : BasicRegister) (size : Size) :
    Except String Reg := do
  r.addRegister (← SizedRegister.make b size)

/-- `Reg::setSize`: the new size must lie in
`(fullSize - limbSize, fullSize]`. -/
def Reg.setSize (r : Reg) (size : Nat) : Except String Reg :=
  if size > r.fullSize || size ≤ r.fullSize - r.limbSize then
    .error "invalid size for Reg object"
  else
    .ok { r with size := size }

/-- `Reg::reversed`: requires `size == fullSize`; reverses the limb
order and sets `zeroFill` to `true` on the result. -/
def Reg.reversed (r : Reg) : Except String Reg :=
  if r.size != r.fullSize then
    .error "cannot reverse an odd-sized register"
  else
    .ok { size := r.size, fullSize := r.fullSize, zeroFill := true,
          regs := r.regs.reverse }

/-- The limb-copy loop of `Reg::subset`:
`while (from <= to) { result.m_regs.push_back(m_regs[from]); ++from; }`.
The upper bound is inclusive, exactly as in the source.  The loop is
modelled by its trip count `n = to + 1 - from` (zero when `from > to`),
reading the indices `from, from + 1, ...`; an index past the end of
the limb vector is undefined behaviour in C++ and is modelled as an
error. -/
def Reg.copyLimbs (regs : List SizedRegister) :
    Nat → Nat → Except String (List SizedRegister)
  | _lo, 0 => .ok []
  | lo, n + 1 =>
    match regs[lo]? with
    | none => .error "out-of-bounds read of the Reg limb vector"
    | some sr => do
      let rest ← Reg.copyLimbs regs (lo + 1) n
      .ok (sr :: rest)

/-- `Reg::subset(start, len)`, translated line by line from the source,
including the inclusive `from <= to` copy loop. -/
def Reg.subset (r : Reg) (start len : Nat) : Except String Reg :=
  let len := if len = 0 then r.size else len
  match _h : r.regs with
  | [] => .ok Reg.empty
  | r0 :: _ =>
    if start ≥ r.size then .ok Reg.empty
    else
      let len := if start + len > r.size then r.size - start else len
      if len = 0 then .ok Reg.empty
      else
        let rsize := r0.size.toNat
        if start % rsize != 0 then
          .error "start of subset is not a multiple of the limb size"
        else if start + len < r.size then
          if len % rsize != 0 then
            .error "length of subset is not a multiple of the limb size"
          else do
            let limbs ← Reg.copyLimbs r.regs (start / rsize)
                          ((start + len) / rsize + 1 - start / rsize)
            .ok { size := len / rsize, fullSize := len / rsize,
                  zeroFill := true, regs := limbs }
        else do
          let limbs ← Reg.copyLimbs r.regs (start / rsize)
                        (r.regs.length + 1 - start / rsize)
          .ok { size := r.size - start, fullSize := r.fullSize - start,
                zeroFill := r.zeroFill, regs := limbs }

/-- The instruction opcode enumeration (`Insn::Type` in `insns.h`,
here `InsnType` because `Type` is reserved in Lean). -/
inductive InsnType where
  | Unknown
  | ADC | ADCI | ADD | ADDI | AND | ANDI | ASR | ASRI | BIC | BICI
  | BREQ | BRGES | BRGEU | BRGTS | BRGTU | BRLES | BRLEU | BRLTS
  | BRLTU | BRNE
  | CMP | CMPI | CMPNI | CMP_BREQ | CMP_BRNE | CMPI_BREQ | CMPI_BRNE
  | EXTS | EXTU | FSLI | FSRI | JMP | LABEL
  | LD8 | LD8S | LD8_ARRAY | LD8S_ARRAY
  | LD16 | LD16S | LD16_ARRAY | LD16S_ARRAY
  | LD32 | LD32S | LD32_ARRAY | LD32S_ARRAY
  | LD64 | LD64_ARRAY | LD_LABEL
  | LDARG8 | LDARG16 | LDARG32 | LDARG64 | LDI
  | LSL | LSLI | LSR | LSRI
  | MOV | MOVI | MOVN | MOVW | MOVT
  | NEG | NOP | NOT | OR | ORI | POP | PUSH
  | PRINT | PRINTCH | PRINTLN
  | ROL | ROLI | ROR | RORI
  | SBC | SBCI | SUB | SUBI | SUBR | SUBRI
  | ST8 | ST8_ARRAY | ST16 | ST16_ARRAY | ST32 | ST32_ARRAY
  | ST64 | ST64_ARRAY
  | SWAP | XOR | XORI
deriving DecidableEq, Repr

/-- Shift modifier for ARM-style shift-and-operate (`Insn::Modifier`). -/
inductive InsnModifier where
  | MOD_NONE | MOD_ASR | MOD_LSL | MOD_LSR | MOD_ROR
deriving DecidableEq, Repr

/-- Instruction options (`Insn::Option`; `Option` is taken in Lean). -/
inductive InsnOption where
  | NONE | SHORT | SETC
deriving DecidableEq, Repr

/-- The fields of `Insn::Private` (minus the reference count), with the
`Private()` constructor defaults. -/
structure InsnData where
  type : InsnType := .Unknown
  modifier : InsnModifier := .MOD_NONE
  shift : Nat := 0
  fields : Nat := 0
  reschedule : Int := 0
  option : InsnOption := .NONE
  dest : SizedRegister := {}
  src1 : SizedRegister := {}
  src2 : SizedRegister := {}
  immValue : Nat := 0
deriving DecidableEq, Repr

/-- `Insn::DEST` field flag. -/
def InsnFieldDEST : Nat := 1
/-- `Insn::SRC1` field flag. -/
def InsnFieldSRC1 : Nat := 2
/-- `Insn::SRC2` field flag. -/
def InsnFieldSRC2 : Nat := 4
/-- `Insn::IMM` field flag. -/
def InsnFieldIMM : Nat := 8
/-- `Insn::LAB` field flag. -/
def InsnFieldLAB : Nat := 16

/-- An instruction record (`Insn`): a reference-counted pointer to an
`InsnData`, null on default construction. -/
structure Insn where
  p : Option InsnData := none
deriving DecidableEq, Repr

/-- `Insn::read()`: a null pointer reads as a default `Private`. -/
def Insn.read (i : Insn) : InsnData := i.p.getD {}

/-- `Insn::write()` exactly as in the source (`insns.cpp`):
`return 0;` -- it always returns a null pointer. -/
def Insn.write (_i : Insn) : Option InsnData := none

/-- `Insn::type()`. -/
def Insn.type (i : Insn) : InsnType := i.read.type

/-- `Insn::setType`: `write()->type = type`.  Dereferencing the null
pointer returned by `Insn::write` is modelled as an error. -/
def Insn.setType (i : Insn) (t : InsnType) : Except String Insn :=
  match i.write with
  | none => .error "null pointer dereference in Insn::write"
  | some d => .ok { p := some { d with type := t } }

/-- `Insn::setDest` via `Insn::write`. -/
def Insn.setDest (i : Insn) (dest : SizedRegister) : Except String Insn :=
  match i.write with
  | none => .error "null pointer dereference in Insn::write"
  | some d => .ok { p := some { d with dest := dest
                                       fields := d.fields ||| InsnFieldDEST } }

/-- `Insn::setSrc1` via `Insn::write`. -/
def Insn.setSrc1 (i : Insn) (src1 : SizedRegister) : Except String Insn :=
  match i.write with
  | none => .error "null pointer dereference in Insn::write"
  | some d => .ok { p := some { d with src1 := src1
                                       fields := d.fields ||| InsnFieldSRC1 } }

/-- `Insn::setSrc2` via `Insn::write`. -/
def Insn.setSrc2 (i : Insn) (src2 : SizedRegister) : Except String Insn :=
  match i.write with
  | none => .error "null pointer dereference in Insn::write"
  | some d => .ok { p := some { d with src2 := src2
                                       fields := d.fields ||| InsnFieldSRC2 } }

/-- `Insn::setImmValue` via `Insn::write`. -/
def Insn.setImmValue (i : Insn) (v : Nat) : Except String Insn :=
  match i.write with
  | none => .error "null pointer dereference in Insn::write"
  | some d => .ok { p := some { d with immValue := v
                                       fields := d.fields ||| InsnFieldIMM } }

/-- `Insn::setLabel` via `Insn::write`. -/
def Insn.setLabel (i : Insn) (label : Nat) : Except String Insn :=
  match i.write with
  | none => .error "null pointer dereference in Insn::write"
  | some d => .ok { p := some { d with immValue := label
                                       fields := d.fields ||| InsnFieldLAB } }

/-- `Insn::setOption` via `Insn::write`. -/
def Insn.setOption (i : Insn) (o : InsnOption) : Except String Insn :=
  match i.write with
  | none => .error "null pointer dereference in Insn::write"
  | some d => .ok { p := some { d with option := o } }

/-- `Insn::setModifier` via `Insn::write`. -/
def Insn.setModifier (i : Insn) (m : InsnModifier) : Except String Insn :=
  match i.write with
  | none => .error "null pointer dereference in Insn::write"
  | some d => .ok { p := some { d with modifier := m } }

/-- `Insn::setShift` via `Insn::write`. -/
def Insn.setShift (i : Insn) (sh : Nat) : Except String Insn :=
  match i.write with
  | none => .error "null pointer dereference in Insn::write"
  | some d => .ok { p := some { d with shift := sh } }

/-- `Insn::bare`: default-construct and `setType`. -/
def Insn.bare (t : InsnType) : Except String Insn :=
  Insn.setType {} t

/-- `Insn::unary`. -/
def Insn.unary (t : InsnType) (dest src : SizedRegister)
    (option : InsnOption) : Except String Insn := do
  let i ← Insn.setType {} t
  let i ← i.setDest dest
  let i ← i.setSrc1 src
  i.setOption option

/-- `Insn::binary` (the overload without a modifier). -/
def Insn.binary (t : InsnType) (dest src1 src2 : SizedRegister)
    (option : InsnOption) : Except String Insn := do
  let i ← Insn.setType {} t
  let i ← i.setDest dest
  let i ← i.setSrc1 src1
  let i ← i.setSrc2 src2
  i.setOption option

/-- `Insn::binary` (the overload with a modifier and shift count). -/
def Insn.binaryMod (t : InsnType) (dest src1 src2 : SizedRegister)
    (modifier : InsnModifier) (shift : Nat) (option : InsnOption) :
    Except String Insn := do
  let i ← Insn.setType {} t
  let i ← i.setDest dest
  let i ← i.setSrc1 src1
  let i ← i.setSrc2 src2
  let i ← (if modifier ≠ InsnModifier.MOD_NONE ∧ shift ≠ 0 then do
            let i ← i.setModifier modifier
            i.setShift shift
          else .ok i)
  i.setOption option

/-- `Insn::binaryImm`. -/
def Insn.binaryImm (t : InsnType) (dest src1 : SizedRegister)
    (immValue : Nat) (option : InsnOption) : Except String Insn := do
  let i ← Insn.setType {} t
  let i ← i.setDest dest
  let i ← i.setSrc1 src1
  let i ← i.setImmValue immValue
  i.setOption option

/-- `Insn::moveImm`. -/
def Insn.moveImm (t : InsnType) (dest : SizedRegister) (immValue : Nat)
    (option : InsnOption) : Except String Insn := do
  let i ← Insn.setType {} t
  let i ← i.setDest dest
  let i ← i.setImmValue immValue
  i.setOption option

/-- `Insn::branch`. -/
def Insn.branch (t : InsnType) (label : Nat) : Except String Insn :=
  do (← Insn.setType {} t).setLabel label

/-!
The design notes of the specification state that `Insn::write`
returning a null pointer is a source bug to be fixed in any
implementation: the obvious intent, mirrored from `BasicRegister::write`
in `regs.cpp`, is copy-on-write.  The `Intended` family below models
the instruction record with that corrected `write`, so that the parts
of the code generator that append instruction records to the buffer
can be expressed.  It sets exactly the same fields in exactly the same
order as the source constructors.
-/

/-- Modelled from the spec: `Insn::write()` with the copy-on-write
behaviour the design notes direct (mirroring `BasicRegister::write`),
replacing the null return of the source. -/
def Insn.writeIntended (i : Insn) : InsnData := i.p.getD {}

/-- `Insn::setType` over the intended `write`. -/
def Insn.setTypeI (i : Insn) (t : InsnType) : Insn :=
  { p := some { i.writeIntended with type := t } }

/-- `Insn::setDest` over the intended `write`. -/
def Insn.setDestI (i : Insn) (dest : SizedRegister) : Insn :=
  { p := some { i.writeIntended with dest := dest
                                     fields := i.writeIntended.fields ||| InsnFieldDEST } }

/-- `Insn::setSrc1` over the intended `write`. -/
def Insn.setSrc1I (i : Insn) (src1 : SizedRegister) : Insn :=
  { p := some { i.writeIntended with src1 := src1
                                     fields := i.writeIntended.fields ||| InsnFieldSRC1 } }

/-- `Insn::setSrc2` over the intended `write`. -/
def Insn.setSrc2I (i : Insn) (src2 : SizedRegister) : Insn :=
  { p := some { i.writeIntended with src2 := src2
                                     fields := i.writeIntended.fields ||| InsnFieldSRC2 } }

/-- `Insn::setOption` over the intended `write`. -/
def Insn.setOptionI (i : Insn) (o : InsnOption) : Insn :=
  { p := some { i.writeIntended with option := o } }

/-- `Insn::binary` (no modifier) over the intended `write`. -/
def Insn.binaryI (t : InsnType) (dest src1 src2 : SizedRegister)
    (option : InsnOption) : Insn :=
  ((((Insn.setTypeI {} t).setDestI dest).setSrc1I src1).setSrc2I
    src2).setOptionI option

/-- `Platform::TwoAddress` feature flag. -/
def Platform.TwoAddress : Nat := 0x0001
/-- `Platform::ThreeAddress` feature flag. -/
def Platform.ThreeAddress : Nat := 0x0002
/-- `Platform::ShiftAndOperate` feature flag. -/
def Platform.ShiftAndOperate : Nat := 0x0004
/-- `Platform::SplitRegisters` feature flag. -/
def Platform.SplitRegisters : Nat := 0x0008
/-- `Platform::RegisterPoor` feature flag. -/
def Platform.RegisterPoor : Nat := 0x0010
/-- `Platform::RegisterRich` feature flag. -/
def Platform.RegisterRich : Nat := 0x0020
/-- `Platform::ShiftToRotate` feature flag. -/
def Platform.ShiftToRotate : Nat := 0x0040
/-- `Platform::FunnelShift` feature flag. -/
def Platform.FunnelShift : Nat := 0x0080
/-- `Platform::BitClear` feature flag. -/
def Platform.BitClear : Nat := 0x0100
/-- `Platform::BigEndian` feature flag. -/
def Platform.BigEndian : Nat := 0x0200
/-- `Platform::UnaryDest` feature flag. -/
def Platform.UnaryDest : Nat := 0x0400
/-- `Platform::CompareAndBranch` feature flag. -/
def Platform.CompareAndBranch : Nat := 0x0800

/-- `Platform::hasFeature` on a raw feature word:
`(m_features & feature) == feature`. -/
def hasFeatureBits (features feature : Nat) : Bool :=
  features &&& feature == feature

/-- A platform description (`Platform`).  The C++ virtual queries
`nativeWordSize` / `addressWordSize` become data fields because each
concrete platform returns a constant. -/
structure Platform where
  features : Nat := 0
  registers : List BasicRegister := []
  arguments : List BasicRegister := []
  sp : BasicRegister := {}
  nativeWordSize : Size
  addressWordSize : Size
deriving DecidableEq, Repr

/-- `Platform::hasFeature`. -/
def Platform.hasFeature (p : Platform) (f : Nat) : Bool :=
  hasFeatureBits p.features f

/-- `Platform::registerForNumber`: first list entry with the number,
or a null `BasicRegister`. -/
def Platform.registerForNumber (regs : List BasicRegister) (number : Nat) :
    BasicRegister :=
  (regs.find? (fun b => b.number == number)).getD {}

/-- `isLowReg` from `platform_arm.cpp`: register number below 8. -/
def isLowReg (reg : SizedRegister) : Bool :=
  reg.reg.number < 8

/-- `Platform_ARM::binary` (the overload without a modifier), from
`platform_arm.cpp`.  It is parameterised by the feature word of the
concrete subclass, and returns the list of instruction records passed
to `CodeGenerator::addInsn` (or the thrown error).  The emitted records
use the `Intended` instruction constructors (see `Insn.writeIntended`). -/
def Platform_ARM.binary (features : Nat) (type : InsnType)
    (dest src1 src2 : SizedRegister) (setc : Bool) :
    Except String (List Insn) :=
  if hasFeatureBits features Platform.TwoAddress &&
      SizedRegister.eqOp dest src1 && isLowReg dest && isLowReg src2 then
    .ok [Insn.binaryI type dest src1 src2 .SHORT]
  else if hasFeatureBits features Platform.ThreeAddress then
    .ok [Insn.binaryI type dest src1 src2
          (if setc then .SETC else .NONE)]
  else
    .error "invalid binary instruction"

/-- The register list of `Platform_ARMv6m::Platform_ARMv6m()`.  Flag
words: `low_flags = Address | Data | TwoAddress`,
`high_flags = Storage`, `save_flags = CalleeSaved`,
`addr_only_flags = Address`, `temp_flags = Temporary`. -/
def armv6mRegisters : List BasicRegister :=
  let low_flags := BasicRegister.Address ||| BasicRegister.Data |||
                   BasicRegister.TwoAddress
  let high_flags := BasicRegister.Storage
  let save_flags := BasicRegister.CalleeSaved
  let addr_only_flags := BasicRegister.Address
  let temp_flags := BasicRegister.Temporary
  [ BasicRegister.reg32 3 "r3" low_flags,
    BasicRegister.reg32 2 "r2" low_flags,
    BasicRegister.reg32 1 "r1" low_flags,
    BasicRegister.reg32 0 "r0" low_flags,
    BasicRegister.reg32 4 "r4" (low_flags ||| save_flags),
    BasicRegister.reg32 5 "r5" (low_flags ||| save_flags),
    BasicRegister.reg32 6 "r6" (low_flags ||| save_flags),
    BasicRegister.reg32 7 "r7" (low_flags ||| save_flags),
    BasicRegister.reg32 8 "r8" (high_flags ||| save_flags),
    BasicRegister.reg32 9 "r9" (high_flags ||| save_flags),
    BasicRegister.reg32 10 "r10" (high_flags ||| save_flags),
    BasicRegister.reg32 12 "ip" (high_flags ||| temp_flags),
    BasicRegister.reg32 11 "fp" (high_flags ||| save_flags),
    BasicRegister.reg32 14 "lr"
      (high_flags ||| save_flags ||| BasicRegister.Link),
    BasicRegister.reg32 13 "sp"
      (addr_only_flags ||| BasicRegister.StackPointer |||
       BasicRegister.NoAllocate),
    BasicRegister.reg32 15 "pc"
      (addr_only_flags ||| BasicRegister.ProgramCounter |||
       BasicRegister.NoAllocate) ]

/-- `Platform_ARMv6m`: the Thumb-only ARMv6-M platform record.
Features `TwoAddress | SplitRegisters | BitClear | UnaryDest`;
argument registers r0..r3; stack pointer r13; native and address
word sizes 32 bits (`Platform_ARM::nativeWordSize`). -/
def Platform_ARMv6m : Platform :=
  { features := Platform.TwoAddress ||| Platform.SplitRegisters |||
                Platform.BitClear ||| Platform.UnaryDest
    registers := armv6mRegisters
    arguments := [Platform.registerForNumber armv6mRegisters 0,
                  Platform.registerForNumber armv6mRegisters 1,
                  Platform.registerForNumber armv6mRegisters 2,
                  Platform.registerForNumber armv6mRegisters 3]
    sp := Platform.registerForNumber armv6mRegisters 13
    nativeWordSize := .Size32
    addressWordSize := .Size32 }

/-- The argument types accepted by `CodeGenerator::addArgument`
(`CodeGenerator::ArgType`). -/
inductive ArgType where
  | ARG_INT8 | ARG_UINT8 | ARG_INT16 | ARG_UINT16
  | ARG_INT32 | ARG_UINT32 | ARG_INT64 | ARG_UINT64 | ARG_PTR
deriving DecidableEq, Repr

/-- The per-function code generator state (`CodeGenerator`). -/
structure CodeGenerator where
  platform : Platform
  insns : List Insn := []
  allocationSize : Size
  allocatedRegs : Nat := 0
  usedRegs : Nat := 0
  nextArgumentReg : Nat := 0
  nextArgumentOffset : Nat := 0
  locals : Nat := 0
deriving DecidableEq, Repr

/-- The `CodeGenerator(Platform *)` constructor: the allocation size
starts at the native word size and all masks and cursors at zero. -/
def CodeGenerator.init (p : Platform) : CodeGenerator :=
  { platform := p, allocationSize := p.nativeWordSize }

/-- `1 << number`, the bit used in the allocated/used register masks.
(The C++ `RegMask` is `uint64_t`; register numbers on the modelled
platforms stay below 64, where the two agree.) -/
def regBit (number : Nat) : Nat := 1 <<< number

/-- The register-selection loop of `CodeGenerator::allocate`: walk the
platform register list in order and take the first `count` registers
that are unallocated, support the size, have all requested flags and
are not `NoAllocate`. -/
def allocSelect (mask : Nat) (rsize : Size) (flags count : Nat) :
    List BasicRegister → Reg → Except String Reg
  | [], acc => .ok acc
  | b :: rest, acc =>
    if acc.numRegs == count then .ok acc
    else if mask &&& regBit b.number != 0 then
      allocSelect mask rsize flags count rest acc
    else if !b.hasSize rsize then
      allocSelect mask rsize flags count rest acc
    else if b.flags &&& flags != flags then
      allocSelect mask rsize flags count rest acc
    else if b.hasFlag BasicRegister.NoAllocate then
      allocSelect mask rsize flags count rest acc
    else do
      allocSelect mask rsize flags count rest
        (← acc.addRegister (← SizedRegister.make b rsize))

/-- The local `rsize` of `CodeGenerator::allocate`: the allocation
size, or the platform address word size when the `Address` flag is
requested. -/
def CodeGenerator.allocRegSize (s : CodeGenerator) (flags : Nat) : Size :=
  if flags &&& BasicRegister.Address != 0 then s.platform.addressWordSize
  else s.allocationSize

/-- The local `count` of `CodeGenerator::allocate`:
`(size + limbSize - 1) / limbSize`. -/
def allocCount (size limbSize : Nat) : Nat :=
  (size + limbSize - 1) / limbSize

/-- `CodeGenerator::allocate(size, flags)`: zero flags allocate
nothing; `ceil(size / limb)` limbs are selected, marked allocated and
used, and the result is trimmed to `size` bits with `zeroFill`
cleared when bits are left over.  (The C++ marks the masks just
before `setSize`; since the state escapes only on success the marked
state is inlined into the final result here.) -/
def CodeGenerator.allocate (s : CodeGenerator) (size flags : Nat) :
    Except String (Reg × CodeGenerator) :=
  if flags == 0 then .ok (Reg.empty, s)
  else do
    let reg ← allocSelect s.allocatedRegs (s.allocRegSize flags) flags
                (allocCount size (s.allocRegSize flags).toNat)
                s.platform.registers Reg.empty
    if reg.numRegs != allocCount size (s.allocRegSize flags).toNat then
      .ok (Reg.empty, s)
    else do
      let reg2 ← reg.setSize size
      .ok (if reg2.fullSize != size then reg2.setZeroFill false else reg2,
           { s with
             allocatedRegs := reg.regs.foldl
               (fun m sr => m ||| regBit sr.reg.number) s.allocatedRegs
             usedRegs := reg.regs.foldl
               (fun m sr => m ||| regBit sr.reg.number) s.usedRegs })

/-- `CodeGenerator::allocateReg`: try up to four flag sets in turn,
throwing when the size is zero or no attempt succeeds. -/
def CodeGenerator.allocateReg (s : CodeGenerator)
    (size f1 f2 f3 f4 : Nat) : Except String (Reg × CodeGenerator) :=
  if size == 0 then .error "cannot allocate zero-sized registers"
  else do
    let (r, s) ← s.allocate size f1
    if !r.isNull then .ok (r, s)
    else do
      let (r, s) ← s.allocate size f2
      if !r.isNull then .ok (r, s)
      else do
        let (r, s) ← s.allocate size f3
        if !r.isNull then .ok (r, s)
        else do
          let (r, s) ← s.allocate size f4
          if r.isNull then
            .error ("cannot allocate a register with " ++
                    toString size ++ " bits")
          else .ok (r, s)

/-- `m &= ~(1 << number)`: clear one bit of a register mask. -/
def clearRegBit (m number : Nat) : Nat := Nat.ldiff m (regBit number)

/-- `CodeGenerator::releaseReg`: clear the allocated-mask bit of every
limb of the register, then clear the `Reg` itself.  Returns the new
generator state and the cleared register. -/
def CodeGenerator.releaseReg (s : CodeGenerator) (r : Reg) :
    CodeGenerator × Reg :=
  let mask := r.regs.foldl (fun m sr => clearRegBit m sr.reg.number)
    s.allocatedRegs
  ({ s with allocatedRegs := mask }, Reg.empty)

/-- The first loop of `CodeGenerator::addArgument`: consume registers
from the platform argument list while any remain and more limbs are
needed.  Returns the updated state, the partially built register and
the remaining limb count. -/
def argConsumeLoop (nsize : Size) :
    Nat → CodeGenerator → Reg → Except String (CodeGenerator × Reg × Nat)
  | 0, s, reg => .ok (s, reg, 0)
  | count + 1, s, reg =>
    if s.nextArgumentReg < s.platform.arguments.length then do
      let basic := (s.platform.arguments[s.nextArgumentReg]?).getD {}
      let s := { s with nextArgumentReg := s.nextArgumentReg + 1 }
      let reg ← reg.addBasicRegister basic nsize
      let s := { s with
        allocatedRegs := s.allocatedRegs ||| regBit basic.number
        usedRegs := s.usedRegs ||| regBit basic.number }
      argConsumeLoop nsize count s reg
    else .ok (s, reg, count + 1)

/-- The second loop of `CodeGenerator::addArgument`: the remaining
limbs are fetched from the stack.  A register is allocated for each;
the `ldarg` instruction that should populate it is marked `TODO` in
the source and is NOT emitted.  `off` mirrors the local `offset`. -/
def argStackLoop (nsize : Size) (isPtr : Bool) :
    Nat → Nat → CodeGenerator → Reg →
    Except String (CodeGenerator × Reg)
  | 0, _off, s, reg => .ok (s, reg)
  | count + 1, off, s, reg => do
    let (temp, s) ←
      (if isPtr then s.allocate nsize.toNat BasicRegister.Address
       else s.allocate nsize.toNat BasicRegister.Data)
    if temp.isNull then .error "cannot allocate argument register"
    else do
      -- TODO in the source: ldarg(temp, offset);
      let first ← match temp.regs[0]? with
                  | none => .error "out-of-bounds read of the Reg limb vector"
                  | some sr => .ok sr
      let reg ← reg.addRegister first
      let s := { s with
        allocatedRegs := s.allocatedRegs ||| regBit first.reg.number
        usedRegs := s.usedRegs ||| regBit first.reg.number }
      argStackLoop nsize isPtr count (off + nsize.toNat) s reg

/-- `CodeGenerator::addArgument`, translated from `codegen.cpp`:
compute the argument width, consume platform argument registers, then
allocate data/address registers for the overflow (the `ldarg` emission
is a TODO in the source), round the stacked size up to the address
word size, and reverse the limb order on big-endian platforms. -/
def CodeGenerator.addArgument (s : CodeGenerator) (type : ArgType) :
    Except String (Reg × CodeGenerator) := do
  let nsize := s.platform.nativeWordSize.toNat
  let asize := s.platform.addressWordSize.toNat
  let size :=
    match type with
    | .ARG_INT8 | .ARG_UINT8 => 8
    | .ARG_INT16 | .ARG_UINT16 => 16
    | .ARG_INT32 | .ARG_UINT32 => 32
    | .ARG_INT64 | .ARG_UINT64 => 64
    | .ARG_PTR => asize
  let size := if size < nsize then nsize else size
  let (count, nsize) :=
    if type == ArgType.ARG_PTR then (1, asize)
    else if size == 64 && nsize < asize && asize ≥ 64 then (1, asize)
    else (size / nsize, nsize)
  let (s, reg, count) ←
    argConsumeLoop (Size.fromNat nsize) count s Reg.empty
  let totalSize := count * nsize
  let (s, reg) ←
    argStackLoop (Size.fromNat nsize) (type == ArgType.ARG_PTR)
      count s.nextArgumentOffset s reg
  let totalSize := Nat.ldiff (totalSize + asize - 1) (asize - 1)
  let s := { s with nextArgumentOffset := s.nextArgumentOffset + totalSize }
  if s.platform.hasFeature Platform.BigEndian then do
    let reg ← reg.reversed
    .ok (reg, s)
  else
    .ok (reg, s)

/-- One step of a register-allocation trace: a `CodeGenerator::allocateReg`
call (a thrown allocation failure leaves the state unchanged, since the
caller discards the function) or a `CodeGenerator::releaseReg` call. -/
inductive GenOp where
  | alloc (size f1 f2 f3 f4 : Nat)
  | release (r : Reg)

/-- Apply one `GenOp` to a generator state. -/
def stepOp (s : CodeGenerator) : GenOp → CodeGenerator
  | .alloc size f1 f2 f3 f4 =>
    match s.allocateReg size f1 f2 f3 f4 with
    | .ok (_, s') => s'
    | .error _ => s
  | .release r => (s.releaseReg r).1

/-- Run a sequence of allocate/release calls from a starting state. -/
def runOps (s : CodeGenerator) (ops : List GenOp) : CodeGenerator :=
  ops.foldl stepOp s

/-!  Concrete fixtures used by several claims. -/

/-- The ARMv6m low register r3 (`reg32(3, "r3", low_flags)`). -/
def r3Low : BasicRegister :=
  BasicRegister.reg32 3 "r3"
    (BasicRegister.Address ||| BasicRegister.Data |||
     BasicRegister.TwoAddress)

/-- The ARMv6m low register r0 at 32 bits. -/
def sr0 : SizedRegister :=
  { reg := BasicRegister.reg32 0 "r0"
      (BasicRegister.Address ||| BasicRegister.Data |||
       BasicRegister.TwoAddress)
    size := .Size32 }

/-- The ARMv6m low register r1 at 32 bits. -/
def sr1 : SizedRegister :=
  { reg := BasicRegister.reg32 1 "r1"
      (BasicRegister.Address ||| BasicRegister.Data |||
       BasicRegister.TwoAddress)
    size := .Size32 }

/-- The ARMv6m low register r2 at 32 bits. -/
def sr2 : SizedRegister :=
  { reg := BasicRegister.reg32 2 "r2"
      (BasicRegister.Address ||| BasicRegister.Data |||
       BasicRegister.TwoAddress)
    size := .Size32 }

/-- A one-limb 32-bit `Reg` holding r3, as built by
`Reg reg(r3, Size32)`. -/
def demoReg : Reg :=
  { size := 32, fullSize := 32, zeroFill := true,
    regs := [{ reg := r3Low, size := .Size32 }] }

/-- `demoReg` with its zero-fill flag cleared through the public
`Reg::setZeroFill(false)` setter. -/
def demoRegNZ : Reg := demoReg.setZeroFill false

/-!  Claim C1. -/

/-- C1: the claim says every instruction-record constructor and field
mutator succeeds and stores its value, equivalently that the pointer
obtained from `Insn::write()` inside every setter is non-null.  In the
source `Insn::write()` is `return 0;`, so every constructor and every
mutator dereferences a null pointer: the code contradicts the claim
(and the specification itself flags this as a source bug).  This
theorem evaluates the code at the failing inputs. -/
theorem claim_C1_insn_write_returns_null :
    ∀ (t : InsnType) (d s1 s2 : SizedRegister) (o : InsnOption)
      (imm lab sh : Nat) (m : InsnModifier) (i : Insn),
      Insn.write i = none ∧
      Insn.bare t = .error "null pointer dereference in Insn::write" ∧
      Insn.unary t d s1 o =
        .error "null pointer dereference in Insn::write" ∧
      Insn.binary t d s1 s2 o =
        .error "null pointer dereference in Insn::write" ∧
      Insn.binaryMod t d s1 s2 m sh o =
        .error "null pointer dereference in Insn::write" ∧
      Insn.binaryImm t d s1 imm o =
        .error "null pointer dereference in Insn::write" ∧
      Insn.moveImm t d imm o =
        .error "null pointer dereference in Insn::write" ∧
      Insn.branch t lab =
        .error "null pointer dereference in Insn::write" ∧
      Insn.setType i t =
        .error "null pointer dereference in Insn::write" := by
  intro t d s1 s2 o imm lab sh m i
  exact ⟨rfl, rfl, rfl, rfl, rfl, rfl, rfl, rfl, rfl⟩

/-!  Claim C2. -/

/-- C2: the claim says `subset(r, 0, size(r))` equals `r` and raises
no error.  In the source the copy loop `while (from <= to)` has an
inclusive upper bound with `to = m_regs.size()`, so the full-range
subset reads one element past the end of the limb vector (undefined
behaviour, modelled as an error).  Evaluated here at a one-limb
register. -/
theorem claim_C2_subset_overruns_limb_vector :
    demoReg.numRegs = 1 ∧ demoReg.size = 32 ∧
    demoReg.subset 0 demoReg.size =
      .error "out-of-bounds read of the Reg limb vector" := by
  exact ⟨rfl, rfl, rfl⟩

/-!  Claim C3. -/

/-- Five `addArgument(ARG_UINT32)` calls on a fresh ARMv6m generator;
the platform has four argument registers, so the fifth argument takes
the overflow path of `CodeGenerator::addArgument`. -/
def fiveArgsRun : Except String (Reg × CodeGenerator) := do
  let s := CodeGenerator.init Platform_ARMv6m
  let (_, s) ← s.addArgument .ARG_UINT32
  let (_, s) ← s.addArgument .ARG_UINT32
  let (_, s) ← s.addArgument .ARG_UINT32
  let (_, s) ← s.addArgument .ARG_UINT32
  s.addArgument .ARG_UINT32

/-- The instruction buffer after the five-argument run. -/
def fiveArgsInsns : Option (List Insn) :=
  fiveArgsRun.toOption.map (fun p => p.2.insns)

/-- The physical register numbers of the fifth argument register. -/
def fiveArgsFifthRegNums : Option (List Nat) :=
  fiveArgsRun.toOption.map
    (fun p => p.1.regs.map (fun sr => sr.reg.number))

/-- Whether the fifth argument register r4 is marked allocated. -/
def fiveArgsBit4 : Option Bool :=
  fiveArgsRun.toOption.map (fun p => p.2.allocatedRegs.testBit 4)

/-- C3: the claim says that when the argument-register list is
exhausted, `addArgument` allocates a further data register AND appends
an `ldarg` instruction record to the buffer.  The source allocates the
register (here r4, the first free data register) but the emission is
`// TODO: ldarg(temp, offset);` -- the instruction buffer stays empty.
The register-allocation half of the claim holds; the `ldarg` half
fails. -/
theorem claim_C3_no_ldarg_emitted :
    fiveArgsInsns = some [] ∧
    fiveArgsFifthRegNums = some [4] ∧
    fiveArgsBit4 = some true := by
  exact ⟨rfl, rfl, rfl⟩

/-!  Claim C4. -/

/-- C4 (counterexample): on ARMv6m (feature set with the two-address
flag and without the three-address flag), the `Platform_ARM::binary`
hook with a destination different from `src1` throws
`invalid instruction` instead of lowering to a move followed by an
in-place operation, contrary to the claim. -/
theorem claim_C4_counterexample :
    Platform_ARMv6m.hasFeature Platform.TwoAddress = true ∧
    Platform_ARMv6m.hasFeature Platform.ThreeAddress = false ∧
    SizedRegister.eqOp sr0 sr1 = false ∧
    Platform_ARM.binary Platform_ARMv6m.features InsnType.ADD
      sr0 sr1 sr2 false = .error "invalid binary instruction" := by
  exact ⟨rfl, rfl, rfl, rfl⟩

/-- C4 (amended): on a platform whose feature word has the two-address
flag but not the three-address flag, the `Platform_ARM::binary` hook
fails with the invalid-instruction error whenever the destination
differs from `src1` (the move-then-operate lowering is not performed
by the hook), and emits the short two-address form when the
destination equals `src1` and both the destination and `src2` lie in
the low register class. -/
theorem claim_C4_two_address_binary_hook (features : Nat)
    (type : InsnType) (dest src1 src2 : SizedRegister) (setc : Bool)
    (h2 : hasFeatureBits features Platform.TwoAddress = true)
    (h3 : hasFeatureBits features Platform.ThreeAddress = false) :
    (SizedRegister.eqOp dest src1 = false →
      Platform_ARM.binary features type dest src1 src2 setc =
        .error "invalid binary instruction") ∧
    (SizedRegister.eqOp dest src1 = true → isLowReg dest = true →
      isLowReg src2 = true →
      Platform_ARM.binary features type dest src1 src2 setc =
        .ok [Insn.binaryI type dest src1 src2 .SHORT]) := by
  constructor
  · intro hne
    simp [Platform_ARM.binary, h2, h3, hne]
  · intro heq hld hls
    simp [Platform_ARM.binary, h2, heq, hld, hls]

/-- C4 (witness): the amended theorem applied on ARMv6m to the
in-place low-register case `add r0, r0, r2`. -/
theorem claim_C4_witness :
    Platform_ARM.binary Platform_ARMv6m.features InsnType.ADD
      sr0 sr0 sr2 false =
      .ok [Insn.binaryI InsnType.ADD sr0 sr0 sr2 .SHORT] :=
  (claim_C4_two_address_binary_hook Platform_ARMv6m.features
    InsnType.ADD sr0 sr0 sr2 false rfl rfl).2 rfl rfl rfl

/-!  Claim C9. -/

/-- C9 (counterexample): `Reg::reversed` always sets the zero-fill
flag of its result to `true`, so for a register with
`size == fullSize` whose zero-fill flag was cleared through the public
`Reg::setZeroFill` setter, the double reversal differs from the
original in the zero-fill flag, contrary to the claim. -/
theorem claim_C9_counterexample :
    demoRegNZ.size = demoRegNZ.fullSize ∧
    demoRegNZ.zeroFill = false ∧
    demoRegNZ.reversed.bind Reg.reversed =
      .ok { demoRegNZ with zeroFill := true } ∧
    ({ demoRegNZ with zeroFill := true } : Reg) ≠ demoRegNZ := by
  refine ⟨rfl, rfl, rfl, ?_⟩
  decide

/-- C9 (amended): for every `Reg` with `size == fullSize`, reversing
twice succeeds and returns a register with the same limbs in the same
order, the same size and full size, and zero-fill set to `true`
(hence equal to `r` exactly when `r` already had zero-fill set). -/
theorem claim_C9_reversed_reversed (r : Reg) (h : r.size = r.fullSize) :
    r.reversed.bind Reg.reversed = .ok { r with zeroFill := true } := by
  simp [Reg.reversed, h, Except.bind]

/-- C9 (witness): the amended theorem applied to the one-limb register
`demoReg`, whose zero-fill flag is `true`, so the double reversal
returns it unchanged. -/
theorem claim_C9_witness :
    demoReg.reversed.bind Reg.reversed =
      .ok { demoReg with zeroFill := true } :=
  claim_C9_reversed_reversed demoReg rfl

/-!  Claim C10. -/

/-- C10: for every `Reg` and all `start`/`len`, if the register has no
limbs or `start >= size()`, then `subset` returns the empty null
register and raises no error; the limb-alignment check comes after
this early return, so this holds even for an unaligned `start`. -/
theorem claim_C10_subset_early_return (r : Reg) (start len : Nat)
    (h : r.regs = [] ∨ r.size ≤ start) :
    r.subset start len = .ok Reg.empty := by
  obtain ⟨sz, fs, zf, regs⟩ := r
  rcases h with h | h
  · simp only at h
    subst h
    rfl
  · simp only at h
    unfold Reg.subset
    cases regs with
    | nil => rfl
    | cons a l => simp [h]

/-- C10 (witness): applied to the one-limb 32-bit register `demoReg`
with `start = 33`, which is past the end AND not a multiple of the
32-bit limb size: the subset is still the empty register, with no
error. -/
theorem claim_C10_witness : demoReg.subset 33 7 = .ok Reg.empty :=
  claim_C10_subset_early_return demoReg 33 7 (Or.inr (by decide))

/-!  Helper lemmas about register masks and the allocator. -/

lemma regBit_eq_two_pow (n : Nat) : regBit n = 2 ^ n :=
  Nat.one_shiftLeft n

lemma land_regBit_eq_zero_iff (m n : Nat) :
    m &&& regBit n = 0 ↔ m.testBit n = false := by
  rw [regBit_eq_two_pow, Nat.and_two_pow]
  cases h : m.testBit n
  · simp
  · simp [Nat.pos_iff_ne_zero.mp (Nat.two_pow_pos n)]

lemma testBit_markFold (l : List SizedRegister) (m i : Nat) :
    (l.foldl (fun m sr => m ||| regBit sr.reg.number) m).testBit i =
      (m.testBit i || l.any (fun sr => decide (sr.reg.number = i))) := by
  induction l generalizing m with
  | nil => simp
  | cons a t ih =>
    rw [List.foldl_cons, ih, Nat.testBit_lor, regBit_eq_two_pow,
      Nat.testBit_two_pow]
    simp only [List.any_cons]
    rw [Bool.or_assoc]

lemma testBit_clearFold (l : List SizedRegister) (m i : Nat) :
    (l.foldl (fun m sr => clearRegBit m sr.reg.number) m).testBit i =
      (m.testBit i && !(l.any (fun sr => decide (sr.reg.number = i)))) := by
  induction l generalizing m with
  | nil => simp
  | cons a t ih =>
    rw [List.foldl_cons, ih]
    simp only [clearRegBit, Nat.testBit_ldiff, regBit_eq_two_pow,
      Nat.testBit_two_pow, List.any_cons, Bool.not_or]
    rw [Bool.and_assoc]

lemma SizedRegister.make_ok {b : BasicRegister} {s : Size}
    {sr : SizedRegister} (h : SizedRegister.make b s = .ok sr) :
    sr = { reg := b, size := s } := by
  unfold SizedRegister.make at h
  split at h
  · cases h
  · cases h; rfl

lemma Reg.addRegister_ok {r : Reg} {sr : SizedRegister} {r' : Reg}
    (h : r.addRegister sr = .ok r') :
    r'.regs = r.regs ++ [sr] ∧ r'.size = r.size + sr.size.toNat ∧
    r'.fullSize = r.fullSize + sr.size.toNat ∧
    r'.zeroFill = r.zeroFill ∧
    ∀ x ∈ r.regs, x.reg.number ≠ sr.reg.number := by
  unfold Reg.addRegister at h
  split at h
  · cases h
  · split at h
    · cases h
    · cases h
      refine ⟨rfl, rfl, rfl, rfl, ?_⟩
      rename_i hdup hmatch
      intro x hx
      have hany :
          (r.regs.any fun y => y.reg.number == sr.reg.number) = false := by
        simpa using hdup
      have := List.any_eq_false.mp hany x hx
      simpa using this

lemma Reg.setSize_ok {r : Reg} {n : Nat} {r' : Reg}
    (h : r.setSize n = .ok r') : r' = { r with size := n } := by
  unfold Reg.setSize at h
  split at h
  · cases h
  · cases h; rfl

/-- Properties of the register-selection loop of
`CodeGenerator::allocate`: every limb of the result either came from
the accumulator or is a platform register that was free, supports the
limb size and is allocatable; distinct numbers are preserved; and the
size bookkeeping tracks the limb count. -/
lemma allocSelect_props (mask : Nat) (rsize : Size) (flags count : Nat) :
    ∀ (regs : List BasicRegister) (acc res : Reg),
      allocSelect mask rsize flags count regs acc = .ok res →
      acc.size = acc.regs.length * rsize.toNat →
      acc.fullSize = acc.regs.length * rsize.toNat →
      (∀ sr ∈ res.regs, sr ∈ acc.regs ∨
          (sr.reg ∈ regs ∧ sr.size = rsize ∧
           mask.testBit sr.reg.number = false ∧
           sr.reg.hasFlag BasicRegister.NoAllocate = false)) ∧
      ((acc.regs.map fun sr => sr.reg.number).Nodup →
        (res.regs.map fun sr => sr.reg.number).Nodup) ∧
      res.zeroFill = acc.zeroFill ∧
      res.size = res.regs.length * rsize.toNat ∧
      res.fullSize = res.regs.length * rsize.toNat := by
  intro regs
  induction regs with
  | nil =>
    intro acc res h hsz hfs
    cases h
    exact ⟨fun sr hsr => Or.inl hsr, id, rfl, hsz, hfs⟩
  | cons b rest ih =>
    intro acc res h hsz hfs
    rw [allocSelect] at h
    split at h
    · cases h
      exact ⟨fun sr hsr => Or.inl hsr, id, rfl, hsz, hfs⟩
    · split at h
      · rcases ih acc res h hsz hfs with ⟨hmem, hnd, hzf, h1, h2⟩
        refine ⟨fun sr hsr => ?_, hnd, hzf, h1, h2⟩
        rcases hmem sr hsr with hin | ⟨hr, hs, hm, hn⟩
        · exact Or.inl hin
        · exact Or.inr ⟨List.mem_cons_of_mem b hr, hs, hm, hn⟩
      · split at h
        · rcases ih acc res h hsz hfs with ⟨hmem, hnd, hzf, h1, h2⟩
          refine ⟨fun sr hsr => ?_, hnd, hzf, h1, h2⟩
          rcases hmem sr hsr with hin | ⟨hr, hs, hm, hn⟩
          · exact Or.inl hin
          · exact Or.inr ⟨List.mem_cons_of_mem b hr, hs, hm, hn⟩
        · split at h
          · rcases ih acc res h hsz hfs with ⟨hmem, hnd, hzf, h1, h2⟩
            refine ⟨fun sr hsr => ?_, hnd, hzf, h1, h2⟩
            rcases hmem sr hsr with hin | ⟨hr, hs, hm, hn⟩
            · exact Or.inl hin
            · exact Or.inr ⟨List.mem_cons_of_mem b hr, hs, hm, hn⟩
          · split at h
            · rcases ih acc res h hsz hfs with ⟨hmem, hnd, hzf, h1, h2⟩
              refine ⟨fun sr hsr => ?_, hnd, hzf, h1, h2⟩
              rcases hmem sr hsr with hin | ⟨hr, hs, hm, hn⟩
              · exact Or.inl hin
              · exact Or.inr ⟨List.mem_cons_of_mem b hr, hs, hm, hn⟩
            · -- b is selected: make the sized register, add it, recurse.
              rename_i hcnt hmask hsize hflags hnoalloc
              cases hmk : SizedRegister.make b rsize with
              | error e =>
                rw [hmk] at h
                simp only [Bind.bind, Except.bind] at h
                exact Except.noConfusion h
              | ok sr0 =>
                rw [hmk] at h
                simp only [Bind.bind, Except.bind] at h
                cases hadd : Reg.addRegister acc sr0 with
                | error e =>
                  rw [hadd] at h
                  simp only [Except.bind] at h
                  exact Except.noConfusion h
                | ok acc' =>
                  rw [hadd] at h
                  simp only [Except.bind] at h
                  have hsr0 : sr0 = { reg := b, size := rsize } :=
                    SizedRegister.make_ok hmk
                  rcases Reg.addRegister_ok hadd with
                    ⟨hregs, hsz', hfs', hzf', hfresh⟩
                  have hmaskbit : mask.testBit b.number = false := by
                    have h0 : mask &&& regBit b.number = 0 := by
                      simpa using hmask
                    exact (land_regBit_eq_zero_iff mask b.number).mp h0
                  have hna : b.hasFlag BasicRegister.NoAllocate = false := by
                    simpa using hnoalloc
                  have hsz2 : acc'.size = acc'.regs.length * rsize.toNat := by
                    rw [hsz', hregs, hsz, hsr0]
                    simp [Nat.succ_mul]
                  have hfs2 :
                      acc'.fullSize = acc'.regs.length * rsize.toNat := by
                    rw [hfs', hregs, hfs, hsr0]
                    simp [Nat.succ_mul]
                  rcases ih acc' res h hsz2 hfs2 with
                    ⟨hmem, hnd, hzf, h1, h2⟩
                  refine ⟨fun sr hsr => ?_, fun hnda => ?_, ?_, h1, h2⟩
                  · rcases hmem sr hsr with hin | ⟨hr, hs, hm, hn⟩
                    · rw [hregs] at hin
                      rcases List.mem_append.mp hin with hin | hin
                      · exact Or.inl hin
                      · have : sr = sr0 := by simpa using hin
                        subst this
                        rw [hsr0]
                        exact Or.inr ⟨List.mem_cons_self b rest, rfl,
                          hmaskbit, hna⟩
                    · exact Or.inr ⟨List.mem_cons_of_mem b hr, hs, hm, hn⟩
                  · apply hnd
                    rw [hregs, hsr0]
                    simp only [List.map_append, List.map_cons,
                      List.map_nil]
                    rw [List.nodup_append]
                    refine ⟨hnda, List.nodup_singleton _, ?_⟩
                    intro x hx hx'
                    simp only [List.mem_map] at hx
                    rcases hx with ⟨y, hy, hyx⟩
                    have := hfresh y hy
                    rw [hsr0] at this
                    simp only [List.mem_singleton] at hx'
                    exact this (by rw [hyx, hx'])
                  · rw [hzf, hzf']

lemma exceptBind_ok {ε α β : Type} {x : Except ε α} {f : α → Except ε β}
    {b : β} (h : (x >>= f) = .ok b) : ∃ a, x = .ok a ∧ f a = .ok b := by
  cases x with
  | error e => simp [Bind.bind, Except.bind] at h
  | ok a =>
    refine ⟨a, rfl, ?_⟩
    simpa [Bind.bind, Except.bind] using h

/-- Properties of a successful, non-null `CodeGenerator::allocate`:
the chosen limbs are free, allocatable platform registers of the limb
size with pairwise distinct numbers; the result has `ceil(size/L)`
limbs, logical size `size`, full size `count * L`, and a cleared
zero-fill flag when the sizes differ; and the new state only marks the
chosen registers in the two masks. -/
lemma CodeGenerator.allocate_ok {s : CodeGenerator} {size flags : Nat}
    {r : Reg} {s' : CodeGenerator}
    (h : s.allocate size flags = .ok (r, s')) (hr : r.isNull = false) :
    (∀ sr ∈ r.regs, sr.reg ∈ s.platform.registers ∧
       sr.size = s.allocRegSize flags ∧
       s.allocatedRegs.testBit sr.reg.number = false ∧
       sr.reg.hasFlag BasicRegister.NoAllocate = false) ∧
    (r.regs.map fun sr => sr.reg.number).Nodup ∧
    r.numRegs = allocCount size (s.allocRegSize flags).toNat ∧
    r.size = size ∧
    r.fullSize = r.numRegs * (s.allocRegSize flags).toNat ∧
    (r.fullSize ≠ size → r.zeroFill = false) ∧
    s' = { s with
      allocatedRegs := r.regs.foldl
        (fun m sr => m ||| regBit sr.reg.number) s.allocatedRegs
      usedRegs := r.regs.foldl
        (fun m sr => m ||| regBit sr.reg.number) s.usedRegs } := by
  by_cases hf : (flags == 0) = true
  · rw [CodeGenerator.allocate, if_pos hf] at h
    cases h
    simp [Reg.isNull, Reg.empty] at hr
  · rw [CodeGenerator.allocate, if_neg hf] at h
    obtain ⟨reg0, hsel, h⟩ := exceptBind_ok h
    split at h
    · cases h
      simp [Reg.isNull, Reg.empty] at hr
    · rename_i hcnt
      obtain ⟨reg1, hss, h⟩ := exceptBind_ok h
      cases h
      have hcnt' : reg0.numRegs =
          allocCount size (s.allocRegSize flags).toNat := by
        simpa using hcnt
      have h1 : reg1 = { reg0 with size := size } := Reg.setSize_ok hss
      subst h1
      rcases allocSelect_props _ _ _ _ _ _ _ hsel (by simp [Reg.empty])
          (by simp [Reg.empty]) with ⟨hmem, hnd, hzf, hsz, hfs⟩
      have hnd' : (reg0.regs.map fun sr => sr.reg.number).Nodup :=
        hnd (by simp [Reg.empty])
      have hmem' : ∀ sr ∈ reg0.regs,
          sr.reg ∈ s.platform.registers ∧
          sr.size = s.allocRegSize flags ∧
          s.allocatedRegs.testBit sr.reg.number = false ∧
          sr.reg.hasFlag BasicRegister.NoAllocate = false := by
        intro sr hsr
        rcases hmem sr hsr with hin | ⟨ha, hb, hc, hd⟩
        · simp [Reg.empty] at hin
        · exact ⟨ha, hb, hc, hd⟩
      split
      · rename_i hne
        refine ⟨hmem', hnd', ?_, rfl, ?_, fun _ => rfl, rfl⟩
        · simpa [Reg.numRegs, Reg.setZeroFill] using hcnt'
        · simpa [Reg.numRegs, Reg.setZeroFill] using hfs
      · rename_i hne
        have hfe : reg0.fullSize = size := by simpa using hne
        refine ⟨hmem', hnd', ?_, rfl, ?_, fun hx => absurd hfe hx, rfl⟩
        · simpa [Reg.numRegs] using hcnt'
        · simpa [Reg.numRegs] using hfs

/-- A successful `CodeGenerator::allocate` of a nonzero size that
returns the null register leaves the generator state unchanged. -/
lemma CodeGenerator.allocate_null {s : CodeGenerator} {size flags : Nat}
    {r : Reg} {s' : CodeGenerator}
    (h : s.allocate size flags = .ok (r, s')) (hsz : size ≠ 0)
    (hr : r.isNull = true) : s' = s ∧ r = Reg.empty := by
  by_cases hf : (flags == 0) = true
  · rw [CodeGenerator.allocate, if_pos hf] at h
    cases h
    exact ⟨rfl, rfl⟩
  · rw [CodeGenerator.allocate, if_neg hf] at h
    obtain ⟨reg0, hsel, h⟩ := exceptBind_ok h
    split at h
    · cases h
      exact ⟨rfl, rfl⟩
    · obtain ⟨reg1, hss, h⟩ := exceptBind_ok h
      cases h
      have h1 : reg1 = { reg0 with size := size } := Reg.setSize_ok hss
      subst h1
      rw [Reg.isNull] at hr
      split at hr <;> simp_all [Reg.setZeroFill]

/-- Inversion for a successful `CodeGenerator::allocateReg`: the size
was nonzero, the result is non-null, and the result is that of a
successful `allocate` with one of the four flag words, starting from
the original state (failed attempts leave the state unchanged). -/
lemma CodeGenerator.allocateReg_ok {s : CodeGenerator}
    {n f1 f2 f3 f4 : Nat} {r : Reg} {s' : CodeGenerator}
    (h : s.allocateReg n f1 f2 f3 f4 = .ok (r, s')) :
    n ≠ 0 ∧ r.isNull = false ∧
    (s.allocate n f1 = .ok (r, s') ∨ s.allocate n f2 = .ok (r, s') ∨
     s.allocate n f3 = .ok (r, s') ∨ s.allocate n f4 = .ok (r, s')) := by
  rw [CodeGenerator.allocateReg] at h
  split at h
  · exact Except.noConfusion h
  · rename_i hn
    have hn' : n ≠ 0 := by simpa using hn
    refine ⟨hn', ?_⟩
    cases hc1 : s.allocate n f1 with
    | error e =>
      rw [hc1] at h
      simp only [Bind.bind, Except.bind] at h
      exact Except.noConfusion h
    | ok p1 =>
      obtain ⟨r1, s1⟩ := p1
      rw [hc1] at h
      simp only [Bind.bind, Except.bind] at h
      split at h
      · rename_i hnull
        cases h
        exact ⟨by simpa using hnull, Or.inl rfl⟩
      · rename_i hnull1
        obtain ⟨hs1, hr1⟩ :=
          CodeGenerator.allocate_null hc1 hn' (by simpa using hnull1)
        rw [hs1] at h
        cases hc2 : s.allocate n f2 with
        | error e =>
          rw [hc2] at h
          simp only [Bind.bind, Except.bind] at h
          exact Except.noConfusion h
        | ok p2 =>
          obtain ⟨r2, s2⟩ := p2
          rw [hc2] at h
          simp only [Bind.bind, Except.bind] at h
          split at h
          · rename_i hnull
            cases h
            exact ⟨by simpa using hnull, Or.inr (Or.inl rfl)⟩
          · rename_i hnull2
            obtain ⟨hs2, hr2⟩ :=
              CodeGenerator.allocate_null hc2 hn' (by simpa using hnull2)
            rw [hs2] at h
            cases hc3 : s.allocate n f3 with
            | error e =>
              rw [hc3] at h
              simp only [Bind.bind, Except.bind] at h
              exact Except.noConfusion h
            | ok p3 =>
              obtain ⟨r3, s3⟩ := p3
              rw [hc3] at h
              simp only [Bind.bind, Except.bind] at h
              split at h
              · rename_i hnull
                cases h
                exact ⟨by simpa using hnull,
                  Or.inr (Or.inr (Or.inl rfl))⟩
              · rename_i hnull3
                obtain ⟨hs3, hr3⟩ :=
                  CodeGenerator.allocate_null hc3 hn'
                    (by simpa using hnull3)
                rw [hs3] at h
                cases hc4 : s.allocate n f4 with
                | error e =>
                  rw [hc4] at h
                  simp only [Bind.bind, Except.bind] at h
                  exact Except.noConfusion h
                | ok p4 =>
                  obtain ⟨r4, s4⟩ := p4
                  rw [hc4] at h
                  simp only [Bind.bind, Except.bind] at h
                  split at h
                  · exact Except.noConfusion h
                  · rename_i hnull4
                    cases h
                    exact ⟨by simpa using hnull4,
                      Or.inr (Or.inr (Or.inr rfl))⟩

/-!  Claim C7. -/

/-- C7: a successful `allocateReg` immediately followed by
`releaseReg` of the returned register restores the allocated-register
mask to its value before the allocation; the ever-used mask keeps the
bits of the allocated registers set; `releaseReg` is idempotent and a
no-op on a null `Reg`; and `releaseReg` changes no generator field
other than the allocated mask (and nulls the `Reg` passed in). -/
theorem claim_C7_release_restores_mask (s : CodeGenerator)
    (n f1 f2 f3 f4 : Nat) (r : Reg) (s' : CodeGenerator)
    (h : s.allocateReg n f1 f2 f3 f4 = .ok (r, s')) :
    (s'.releaseReg r).1.allocatedRegs = s.allocatedRegs ∧
    (s'.releaseReg r).2 = Reg.empty ∧
    (r.regs.all fun sr =>
      (s'.releaseReg r).1.usedRegs.testBit sr.reg.number) = true ∧
    (s'.releaseReg r).1.releaseReg r = s'.releaseReg r ∧
    (s'.releaseReg r).1.releaseReg Reg.empty =
      ((s'.releaseReg r).1, Reg.empty) ∧
    (s'.releaseReg r).1.usedRegs = s'.usedRegs ∧
    (s'.releaseReg r).1.platform = s'.platform ∧
    (s'.releaseReg r).1.insns = s'.insns ∧
    (s'.releaseReg r).1.allocationSize = s'.allocationSize ∧
    (s'.releaseReg r).1.nextArgumentReg = s'.nextArgumentReg ∧
    (s'.releaseReg r).1.nextArgumentOffset = s'.nextArgumentOffset ∧
    (s'.releaseReg r).1.locals = s'.locals := by
  obtain ⟨hn, hnull, hOr⟩ := CodeGenerator.allocateReg_ok h
  have key : ∀ f : Nat, s.allocate n f = .ok (r, s') →
      (s'.releaseReg r).1.allocatedRegs = s.allocatedRegs ∧
      (r.regs.all fun sr =>
        (s'.releaseReg r).1.usedRegs.testBit sr.reg.number) = true := by
    intro f hA
    rcases CodeGenerator.allocate_ok hA hnull with
      ⟨hmem, hnd, hcnt, hsz, hfs, hzf, hs'⟩
    subst hs'
    constructor
    · apply Nat.eq_of_testBit_eq
      intro i
      simp only [CodeGenerator.releaseReg, testBit_clearFold,
        testBit_markFold]
      cases hi : r.regs.any (fun sr => decide (sr.reg.number = i)) with
      | false => simp
      | true =>
        obtain ⟨sr, hsr, hpi⟩ := List.any_eq_true.mp hi
        have hbit := (hmem sr hsr).2.2.1
        have : sr.reg.number = i := of_decide_eq_true hpi
        subst this
        simp [hbit]
    · rw [List.all_eq_true]
      intro sr hsr
      simp only [CodeGenerator.releaseReg, testBit_markFold]
      have : r.regs.any (fun x => decide (x.reg.number = sr.reg.number))
          = true :=
        List.any_eq_true.mpr ⟨sr, hsr, by simp⟩
      simp [this]
  have hmain : (s'.releaseReg r).1.allocatedRegs = s.allocatedRegs ∧
      (r.regs.all fun sr =>
        (s'.releaseReg r).1.usedRegs.testBit sr.reg.number) = true := by
    rcases hOr with hA | hA | hA | hA
    · exact key f1 hA
    · exact key f2 hA
    · exact key f3 hA
    · exact key f4 hA
  refine ⟨hmain.1, rfl, hmain.2, ?_, rfl, rfl, rfl, rfl, rfl, rfl, rfl,
    rfl⟩
  -- Idempotence: clearing the same bits a second time changes nothing.
  simp only [CodeGenerator.releaseReg]
  refine Prod.ext ?_ rfl
  simp only
  congr 1
  apply Nat.eq_of_testBit_eq
  intro i
  rw [testBit_clearFold, testBit_clearFold]
  cases hi : r.regs.any (fun sr => decide (sr.reg.number = i)) <;> simp

/-- The allocated-register mask and ever-used mask after
`allocateReg(64, Data)` on a fresh ARMv6m generator: r3 and r2 are
taken, so both masks are `(1 << 3) | (1 << 2) = 12`. -/
def c7state : CodeGenerator :=
  { CodeGenerator.init Platform_ARMv6m with
    allocatedRegs := 12
    usedRegs := 12 }

/-- The register returned by `allocateReg(64, Data)` on a fresh
ARMv6m generator: limbs r3 (low) and r2 (high). -/
def c7reg : Reg :=
  { size := 64, fullSize := 64, zeroFill := true,
    regs := [{ reg := r3Low, size := .Size32 }, sr2] }

/-- C7 (witness): releasing the 64-bit register allocated from a
fresh ARMv6m generator restores the allocated mask to zero. -/
theorem claim_C7_witness :
    (c7state.releaseReg c7reg).1.allocatedRegs =
      (CodeGenerator.init Platform_ARMv6m).allocatedRegs :=
  (claim_C7_release_restores_mask (CodeGenerator.init Platform_ARMv6m)
    64 BasicRegister.Data 0 0 0 c7reg c7state rfl).1

/-!  Claim C8. -/

/-- `Size::toNat` is positive for every size. -/
lemma Size.toNat_pos (s : Size) : 0 < s.toNat := by
  cases s <;> decide

/-- C8: a successful `allocateReg` whose winning `allocate` attempt
used the flag word `f`, where the requested bit count is not a
multiple of the limb width `L` (the current allocation size, or the
address word size when the `Address` flag is requested), returns a
register of exactly `ceil(size/L)` limbs with `size() == size`,
`fullSize() == ceil(size/L) * L` and `zeroFill() == false`. -/
theorem claim_C8_partial_limb_allocation (s : CodeGenerator)
    (size f1 f2 f3 f4 f : Nat) (r : Reg) (s' : CodeGenerator)
    (h : s.allocateReg size f1 f2 f3 f4 = .ok (r, s'))
    (hf : s.allocate size f = .ok (r, s'))
    (hmod : size % (s.allocRegSize f).toNat ≠ 0) :
    r.numRegs = allocCount size (s.allocRegSize f).toNat ∧
    r.size = size ∧
    r.fullSize = allocCount size (s.allocRegSize f).toNat *
      (s.allocRegSize f).toNat ∧
    r.zeroFill = false := by
  obtain ⟨hn, hnull, -⟩ := CodeGenerator.allocateReg_ok h
  rcases CodeGenerator.allocate_ok hf hnull with
    ⟨hmem, hnd, hcnt, hsz, hfs, hzf, hs'⟩
  refine ⟨hcnt, hsz, by rw [hfs, hcnt], ?_⟩
  apply hzf
  intro hcontra
  apply hmod
  rw [← hcontra, hfs]
  exact Nat.mul_mod_left _ _

/-- The register returned by `allocateReg(40, Data)` on a fresh
ARMv6m generator: two 32-bit limbs r3 and r2 trimmed to 40 bits with
the zero-fill flag cleared. -/
def c8reg : Reg :=
  { size := 40, fullSize := 64, zeroFill := false,
    regs := [{ reg := r3Low, size := .Size32 }, sr2] }

/-- C8 (witness): allocating 40 bits (not a multiple of the 32-bit
limb width) on a fresh ARMv6m generator reserves `ceil(40/32) = 2`
limbs, keeps `size() = 40`, has `fullSize() = 64` and clears the
zero-fill flag. -/
theorem claim_C8_witness :
    c8reg.numRegs =
      allocCount 40
        ((CodeGenerator.init Platform_ARMv6m).allocRegSize
          BasicRegister.Data).toNat ∧
    c8reg.size = 40 ∧
    c8reg.fullSize =
      allocCount 40
        ((CodeGenerator.init Platform_ARMv6m).allocRegSize
          BasicRegister.Data).toNat *
      ((CodeGenerator.init Platform_ARMv6m).allocRegSize
        BasicRegister.Data).toNat ∧
    c8reg.zeroFill = false :=
  claim_C8_partial_limb_allocation (CodeGenerator.init Platform_ARMv6m)
    40 BasicRegister.Data 0 0 0 BasicRegister.Data c8reg c7state rfl rfl
    (by decide)

/-!  Claim C6. -/

/-- One allocate/release step preserves the platform and never sets an
allocated-mask bit belonging to a `NoAllocate` register, provided the
platform register numbers are pairwise distinct. -/
lemma stepOp_noalloc_preserved (p : Platform)
    (hnum : (p.registers.map fun b => b.number).Nodup)
    (s : CodeGenerator) (op : GenOp) (hp : s.platform = p)
    (hinv : ∀ b ∈ p.registers, b.hasFlag BasicRegister.NoAllocate = true →
      s.allocatedRegs.testBit b.number = false) :
    (stepOp s op).platform = p ∧
    ∀ b ∈ p.registers, b.hasFlag BasicRegister.NoAllocate = true →
      (stepOp s op).allocatedRegs.testBit b.number = false := by
  cases op with
  | release r =>
    refine ⟨hp, fun b hb hfl => ?_⟩
    simp only [stepOp, CodeGenerator.releaseReg, testBit_clearFold]
    rw [hinv b hb hfl]
    rfl
  | alloc size f1 f2 f3 f4 =>
    simp only [stepOp]
    cases hcall : s.allocateReg size f1 f2 f3 f4 with
    | error e => exact ⟨hp, hinv⟩
    | ok pr =>
      obtain ⟨r0, s0⟩ := pr
      obtain ⟨hn, hnull, hOr⟩ := CodeGenerator.allocateReg_ok hcall
      have key : ∀ f : Nat, s.allocate size f = .ok (r0, s0) →
          s0.platform = p ∧
          ∀ b ∈ p.registers,
            b.hasFlag BasicRegister.NoAllocate = true →
            s0.allocatedRegs.testBit b.number = false := by
        intro f hA
        rcases CodeGenerator.allocate_ok hA hnull with
          ⟨hmem, -, -, -, -, -, hs0⟩
        subst hs0
        refine ⟨hp, fun b hb hfl => ?_⟩
        simp only [testBit_markFold]
        rw [hinv b hb hfl]
        cases hi : r0.regs.any (fun sr => decide (sr.reg.number = b.number))
            with
        | false => rfl
        | true =>
          exfalso
          obtain ⟨sr, hsr, hpi⟩ := List.any_eq_true.mp hi
          have hnumeq : sr.reg.number = b.number := of_decide_eq_true hpi
          have hsrmem : sr.reg ∈ p.registers := by
            rw [← hp]; exact (hmem sr hsr).1
          have hsrna : sr.reg.hasFlag BasicRegister.NoAllocate = false :=
            (hmem sr hsr).2.2.2
          have : sr.reg = b :=
            List.inj_on_of_nodup_map hnum hsrmem hb hnumeq
          rw [this, hfl] at hsrna
          exact Bool.noConfusion hsrna
      rcases hOr with hA | hA | hA | hA
      · exact key f1 hA
      · exact key f2 hA
      · exact key f3 hA
      · exact key f4 hA

/-- The invariant of claim C6 carried along an arbitrary trace. -/
lemma runOps_noalloc_inv (p : Platform)
    (hnum : (p.registers.map fun b => b.number).Nodup)
    (ops : List GenOp) :
    ∀ s : CodeGenerator, s.platform = p →
    (∀ b ∈ p.registers, b.hasFlag BasicRegister.NoAllocate = true →
      s.allocatedRegs.testBit b.number = false) →
    (runOps s ops).platform = p ∧
    ∀ b ∈ p.registers, b.hasFlag BasicRegister.NoAllocate = true →
      (runOps s ops).allocatedRegs.testBit b.number = false := by
  induction ops with
  | nil => exact fun s hp hinv => ⟨hp, hinv⟩
  | cons op rest ih =>
    intro s hp hinv
    obtain ⟨hp', hinv'⟩ := stepOp_noalloc_preserved p hnum s op hp hinv
    exact ih (stepOp s op) hp' hinv'

/-- C6: for every platform whose register numbers are pairwise
distinct (an invariant of the data model) and every sequence of
`allocateReg` / `releaseReg` calls starting from a fresh
`CodeGenerator`, the allocated-register mask never has a bit set for
a register whose flags include `NoAllocate`. -/
theorem claim_C6_noalloc_never_allocated (p : Platform)
    (hnum : (p.registers.map fun b => b.number).Nodup)
    (ops : List GenOp) (b : BasicRegister) (hb : b ∈ p.registers)
    (hfl : b.hasFlag BasicRegister.NoAllocate = true) :
    (runOps (CodeGenerator.init p) ops).allocatedRegs.testBit b.number
      = false := by
  refine (runOps_noalloc_inv p hnum ops (CodeGenerator.init p) rfl
    ?_).2 b hb hfl
  intro b' _ _
  simp [CodeGenerator.init]

/-- The ARMv6m stack pointer r13, which is marked `NoAllocate`. -/
def armv6mSP : BasicRegister :=
  BasicRegister.reg32 13 "sp"
    (BasicRegister.Address ||| BasicRegister.StackPointer |||
     BasicRegister.NoAllocate)

/-- A short demonstration trace: allocate 64 data bits, release a
register, allocate 32 storage-or-data bits. -/
def c6ops : List GenOp :=
  [GenOp.alloc 64 BasicRegister.Data 0 0 0,
   GenOp.release c7reg,
   GenOp.alloc 32 BasicRegister.Storage BasicRegister.Data 0 0]

/-- C6 (witness): after the demonstration trace on ARMv6m, bit 13
(the `NoAllocate` stack pointer) of the allocated mask is clear. -/
theorem claim_C6_witness :
    (runOps (CodeGenerator.init Platform_ARMv6m) c6ops).allocatedRegs.testBit
      13 = false :=
  claim_C6_noalloc_never_allocated Platform_ARMv6m (by decide) c6ops
    armv6mSP (by decide) (by decide)

/-!  Claim C5: the ARMv8-a bitmask-logical immediate validator. -/

/-- The all-ones 64-bit word `~0ULL`. -/
def mask64 : Nat := 2 ^ 64 - 1

/-- One step of the first normalisation loop of
`isOperandLogicalConstantARMv8a`:
`value = (value >> 1) | (value << 63)` on `uint64_t`. -/
def ror1 (v : Nat) : Nat := (v >>> 1) ||| ((v <<< 63) &&& mask64)

/-- One step of the second normalisation loop:
`value = (value << 1) | (value >> 63)` on `uint64_t`. -/
def rol1 (v : Nat) : Nat := ((v <<< 1) &&& mask64) ||| (v >>> 63)

/-- `while ((value & 1) == 0) value = ror1(value);`, with fuel. -/
def rorLoop : Nat → Nat → Option Nat
  | 0, _ => none
  | fuel + 1, v => if v &&& 1 == 0 then rorLoop fuel (ror1 v) else some v

/-- `while ((value & 0x8000000000000000ULL) != 0) value = rol1(value);`,
with fuel. -/
def rolLoop : Nat → Nat → Option Nat
  | 0, _ => none
  | fuel + 1, v =>
    if v &&& 0x8000000000000000 != 0 then rolLoop fuel (rol1 v)
    else some v

/-- `unsigned ones = 1; while ((value & (1ULL << ones)) != 0) ++ones;`,
with fuel; the starting index is the second argument. -/
def onesLoop : Nat → Nat → Nat → Option Nat
  | 0, _, _ => none
  | fuel + 1, v, ones =>
    if v &&& (1 <<< ones) != 0 then onesLoop fuel v (ones + 1)
    else some ones

/-- `unsigned zeroes = ones;
while (zeroes < 64 && (value & (1ULL << zeroes)) == 0) ++zeroes;`,
with fuel; returns the final index (the caller subtracts `ones`). -/
def zeroesLoop : Nat → Nat → Nat → Option Nat
  | 0, _, _ => none
  | fuel + 1, v, z =>
    if z < 64 && v &&& (1 <<< z) == 0 then zeroesLoop fuel v (z + 1)
    else some z

/-- The run-repetition check:
`for (offset = runSize; offset < 64; offset += runSize)
   if (((value >> offset) & ((1ULL << runSize) - 1)) != run) return false;`,
with fuel. -/
def runsMatchLoop (v runSize run : Nat) : Nat → Nat → Option Bool
  | 0, _ => none
  | fuel + 1, offset =>
    if offset < 64 then
      if (v >>> offset) &&& ((1 <<< runSize) - 1) != run then some false
      else runsMatchLoop v runSize run fuel (offset + runSize)
    else some true

/-- The body of `isOperandLogicalConstantARMv8a` after the 32-bit
duplication step: reject the all-zeroes and all-ones words, rotate a
one into the least significant bit, rotate the run boundary down from
the top, count the bottom runs of ones and zeroes, and accept when
the run size is 64 or is a power of two whose run tiles the word. -/
def logicalCore (value : Nat) : Option Bool :=
  if value == 0 || value == mask64 then some false
  else do
    let v ← rorLoop 64 value
    let v ← rolLoop 64 v
    let ones ← onesLoop 64 v 1
    let z ← zeroesLoop 64 v ones
    let zeroes := z - ones
    let runSize := ones + zeroes
    if runSize == 64 then some true
    else if runSize != 2 && runSize != 4 && runSize != 8 &&
            runSize != 16 && runSize != 32 then some false
    else
      runsMatchLoop v runSize (v &&& ((1 <<< runSize) - 1)) 32 runSize

/-- The 32-bit duplication at the top of
`isOperandLogicalConstantARMv8a`:
`if (size == Size32) value = (value << 32) | (uint32_t)value;`
(on `uint64_t`, so the shift wraps). -/
def dup64 (value : Nat) (size : Size) : Nat :=
  if size == Size.Size32 then
    ((value <<< 32) &&& mask64) ||| (value &&& 0xFFFFFFFF)
  else value

/-- `isOperandLogicalConstantARMv8a` from `platform_arm.cpp`.  The
result is an `Option` only because the `while` loops are modelled
with fuel; the fuel `64` is proved sufficient for every input below
`2^64`. -/
def isOperandLogicalConstantARMv8a (value : Nat) (size : Size) :
    Option Bool :=
  logicalCore (dup64 value size)

/-- `isOperandMoveConstantARMv8a` from `platform_arm.cpp`: a 16-bit
value shifted into place by 0, 16, 32 or 48 bits. -/
def isOperandMoveConstantARMv8a (value : Nat) (size : Size) : Bool :=
  if size == Size.Size64 then
    if value &&& 0x000000000000FFFF == value then true
    else if value &&& 0x00000000FFFF0000 == value then true
    else if value &&& 0x0000FFFF00000000 == value then true
    else if value &&& 0xFFFF000000000000 == value then true
    else false
  else
    if (value &&& 0xFFFFFFFF) &&& 0x0000FFFF == value &&& 0xFFFFFFFF then
      true
    else if (value &&& 0xFFFFFFFF) &&& 0xFFFF0000 = value &&& 0xFFFFFFFF
        then true
    else false

/-- `Platform_ARMv8a::validateImmediate`, translated case by case from
`platform_arm.cpp`.  Branches other than the bitmask-logical ones are
plain booleans wrapped in `some`. -/
def Platform_ARMv8a.validateImmediate (type : InsnType) (value : Nat)
    (size : Size) : Option Bool :=
  match type with
  | .ADDI | .CMPI | .CMPNI | .SUBI =>
    if value &&& 0x00000FFF == value then some true
    else if value &&& 0x00FFF000 == value then some true
    else some false
  | .ANDI | .ORI | .XORI => isOperandLogicalConstantARMv8a value size
  | .MOVI =>
    if isOperandMoveConstantARMv8a value size then some true
    else isOperandLogicalConstantARMv8a value size
  | .MOVN => some (isOperandMoveConstantARMv8a value size)
  | .ASRI | .LSLI | .LSRI | .ROLI | .RORI =>
    if size == Size.Size64 then some (decide (value < 64))
    else some (decide (value < 32))
  | .LD8 | .LD8S | .ST8 => some (decide (value ≤ 4095))
  | .LD16 | .LD16S | .ST16 =>
    some (value &&& 1 == 0 && decide (value ≤ 8190))
  | .LD32 | .LD32S | .ST32 =>
    some (value &&& 3 == 0 && decide (value ≤ 16380))
  | .LD64 | .ST64 =>
    some (value &&& 7 == 0 && decide (value ≤ 32760))
  | _ => some false

/-- The specification-side tiling: `repBlock n block s` repeats the
`s`-bit pattern `block` in `n` consecutive `s`-bit slots, least
significant slot first. -/
def repBlock : Nat → Nat → Nat → Nat
  | 0, _, _ => 0
  | n + 1, block, s => block + repBlock n block s * 2 ^ s

/-- The specification-side pattern: `Y > 0` consecutive ones followed
by `X = s - Y > 0` consecutive zeros, tiled across the 64-bit word. -/
def tile (s Y : Nat) : Nat := repBlock (64 / s) (2 ^ Y - 1) s

/-- Rotate a 64-bit word right by `r` bits (specification side). -/
def ror64 (r v : Nat) : Nat :=
  ((v >>> r) ||| (v <<< (64 - r))) &&& mask64

/-- The specification of the ARMv8-a bitmask-logical immediates: the
word is some rotation of a tiling of a pattern of `Y > 0` consecutive
ones followed by `X > 0` consecutive zeros where `X + Y` is a power
of two. -/
def SpecLogicalImmediate (v : Nat) : Prop :=
  ∃ s ∈ [2, 4, 8, 16, 32, 64], ∃ Y ∈ List.range s,
    0 < Y ∧ ∃ r ∈ List.range 64, v = ror64 r (tile s Y)

instance (v : Nat) : Decidable (SpecLogicalImmediate v) := by
  unfold SpecLogicalImmediate
  infer_instance

/-!  Bit-level helper lemmas for claim C5. -/

lemma mask64_testBit (i : Nat) : mask64.testBit i = decide (i < 64) :=
  Nat.testBit_two_pow_sub_one 64 i

lemma testBit_ge64 {v i : Nat} (hv : v < 2 ^ 64) (hi : 64 ≤ i) :
    v.testBit i = false :=
  Nat.testBit_lt_two_pow (lt_of_lt_of_le hv (Nat.pow_le_pow_right (by omega) hi))

lemma land_one_eq_zero (v : Nat) : (v &&& 1 == 0) = !v.testBit 0 := by
  rw [Nat.and_one_is_mod, Nat.testBit_zero]
  rcases Nat.mod_two_eq_zero_or_one v with h | h <;> simp [h]

lemma land_shift_ne_zero (v k : Nat) :
    (v &&& (1 <<< k) != 0) = v.testBit k := by
  rw [Nat.one_shiftLeft, Nat.and_two_pow]
  cases h : v.testBit k <;>
    simp [h, Nat.pos_iff_ne_zero.mp (Nat.two_pow_pos k)]

lemma land_shift_mask (v k : Nat) : v &&& ((1 <<< k) - 1) = v % 2 ^ k := by
  rw [Nat.one_shiftLeft, Nat.and_pow_two_sub_one_eq_mod]

lemma ror64_lt (r v : Nat) : ror64 r v < 2 ^ 64 := by
  have : mask64 < 2 ^ 64 := by decide
  exact Nat.and_lt_two_pow _ this

lemma testBit_ror64 {v r i : Nat} (hv : v < 2 ^ 64) (hr : r < 64)
    (hi : i < 64) : (ror64 r v).testBit i = v.testBit ((i + r) % 64) := by
  rw [ror64, Nat.testBit_land, mask64_testBit, Nat.testBit_lor,
    Nat.testBit_shiftRight, Nat.testBit_shiftLeft]
  rcases Nat.lt_or_ge (i + r) 64 with h | h
  · have h1 : (i + r) % 64 = i + r := Nat.mod_eq_of_lt h
    have h2 : ¬(64 - r ≤ i) := by omega
    simp [h1, h2, hi, Nat.add_comm r i]
  · have h1 : (i + r) % 64 = i + r - 64 := by omega
    have h2 : 64 - r ≤ i := by omega
    have h3 : v.testBit (r + i) = false := testBit_ge64 hv (by omega)
    have h4 : i - (64 - r) = i + r - 64 := by omega
    simp [h1, h2, h3, h4, hi]

lemma ext64 {a b : Nat} (ha : a < 2 ^ 64) (hb : b < 2 ^ 64)
    (h : ∀ i < 64, a.testBit i = b.testBit i) : a = b := by
  apply Nat.eq_of_testBit_eq
  intro i
  rcases Nat.lt_or_ge i 64 with hi | hi
  · exact h i hi
  · rw [testBit_ge64 ha hi, testBit_ge64 hb hi]

lemma ror64_zero {v : Nat} (hv : v < 2 ^ 64) : ror64 0 v = v := by
  apply ext64 (ror64_lt 0 v) hv
  intro i hi
  rw [testBit_ror64 hv (by omega) hi]
  congr 1
  omega

lemma ror64_ror64 {v a b : Nat} (hv : v < 2 ^ 64) (ha : a < 64)
    (hb : b < 64) : ror64 a (ror64 b v) = ror64 ((a + b) % 64) v := by
  apply ext64 (ror64_lt a _) (ror64_lt _ v)
  intro i hi
  rw [testBit_ror64 (ror64_lt b v) ha hi,
    testBit_ror64 hv hb (Nat.mod_lt _ (by omega)),
    testBit_ror64 hv (Nat.mod_lt _ (by omega)) hi]
  congr 1
  omega

lemma ror64_inv {v r : Nat} (hv : v < 2 ^ 64) (hr : r < 64) :
    ror64 ((64 - r) % 64) (ror64 r v) = v := by
  rw [ror64_ror64 hv (Nat.mod_lt _ (by omega)) hr]
  have : ((64 - r) % 64 + r) % 64 = 0 := by omega
  rw [this]
  exact ror64_zero hv

lemma ror1_eq {v : Nat} (hv : v < 2 ^ 64) : ror1 v = ror64 1 v := by
  apply Nat.eq_of_testBit_eq
  intro i
  rw [ror1, ror64, Nat.testBit_land, mask64_testBit, Nat.testBit_lor,
    Nat.testBit_lor, Nat.testBit_land, mask64_testBit,
    Nat.testBit_shiftRight]
  rcases Nat.lt_or_ge i 64 with hi | hi
  · simp [hi]
  · have h1 : v.testBit (1 + i) = false := testBit_ge64 hv (by omega)
    simp [h1, show ¬(i < 64) by omega]

lemma rol1_eq {v : Nat} (hv : v < 2 ^ 64) : rol1 v = ror64 63 v := by
  apply Nat.eq_of_testBit_eq
  intro i
  simp only [rol1, ror64, Nat.testBit_lor, Nat.testBit_land,
    mask64_testBit, Nat.testBit_shiftRight, Nat.testBit_shiftLeft,
    show (64 : Nat) - 63 = 1 from rfl]
  rcases Nat.lt_or_ge i 64 with hi | hi
  · simp [hi]
    exact Bool.or_comm _ _
  · have h1 : v.testBit (63 + i) = false := testBit_ge64 hv (by omega)
    simp [h1, show ¬(i < 64) by omega]

lemma ror1_even {v : Nat} (_hv : v < 2 ^ 64) (he : v % 2 = 0) :
    ror1 v = v / 2 := by
  rw [ror1]
  have hshift : (v <<< 63) &&& mask64 = 0 := by
    apply Nat.eq_of_testBit_eq
    intro i
    rw [Nat.testBit_land, mask64_testBit, Nat.testBit_shiftLeft,
      Nat.zero_testBit]
    by_cases h63 : 63 ≤ i
    · by_cases h64 : i < 64
      · have hieq : i = 63 := by omega
        subst hieq
        have hb : v.testBit 0 = false := by
          rw [Nat.testBit_zero]
          simp [he]
        simp [hb]
      · simp [h64]
    · simp [h63]
  rw [hshift, Nat.or_zero, Nat.shiftRight_one]

/-!  Termination and characterisation of the C5 loops. -/

lemma rorLoop_ok : ∀ fuel, fuel ≤ 64 → ∀ v, v < 2 ^ 64 →
    v % 2 ^ fuel ≠ 0 →
    ∃ k, k < fuel ∧ rorLoop fuel v = some (ror64 k v) ∧
      (ror64 k v).testBit 0 = true := by
  intro fuel
  induction fuel with
  | zero =>
    intro _ v _ hm
    exact absurd (by rw [pow_zero]; exact Nat.mod_one v) hm
  | succ fuel ih =>
    intro hle v hv hm
    rw [rorLoop]
    by_cases hodd : (v &&& 1 == 0) = true
    · rw [if_pos hodd]
      have heven : v % 2 = 0 := by
        rw [Nat.and_one_is_mod] at hodd
        simpa using hodd
      have hrr : ror1 v = v / 2 := ror1_even hv heven
      have hv2 : v / 2 < 2 ^ 64 := by omega
      have hm2 : (v / 2) % 2 ^ fuel ≠ 0 := by
        intro hc
        apply hm
        have hsplit : v = 2 * (v / 2) := by omega
        rw [hsplit, Nat.pow_succ, Nat.mul_comm (2 ^ fuel) 2,
          Nat.mul_mod_mul_left, hc, Nat.mul_zero]
      obtain ⟨k, hk, hres, hbit⟩ := ih (by omega) (v / 2) hv2 hm2
      refine ⟨k + 1, by omega, ?_, ?_⟩
      · rw [hrr, hres]
        congr 1
        have : v / 2 = ror64 1 v := by rw [← ror1_eq hv, hrr]
        rw [this, ror64_ror64 hv (by omega) (by omega),
          Nat.mod_eq_of_lt (by omega : k + 1 < 64)]
      · have : v / 2 = ror64 1 v := by rw [← ror1_eq hv, hrr]
        rw [this, ror64_ror64 hv (by omega) (by omega),
          Nat.mod_eq_of_lt (by omega : k + 1 < 64)] at hbit
        exact hbit
    · rw [if_neg hodd]
      refine ⟨0, by omega, by rw [ror64_zero hv], ?_⟩
      rw [ror64_zero hv, Nat.testBit_zero]
      have : v % 2 ≠ 0 := by
        intro hc
        apply hodd
        rw [Nat.and_one_is_mod]
        simpa using hc
      simp
      omega

lemma rolLoop_ok : ∀ fuel, fuel ≤ 64 → ∀ v, v < 2 ^ 64 →
    (∃ j, 64 - fuel ≤ j ∧ j < 64 ∧ v.testBit j = false) →
    ∃ k, k < 64 ∧ rolLoop fuel v = some (ror64 k v) ∧
      (ror64 k v).testBit 63 = false ∧
      (v.testBit 0 = true → (ror64 k v).testBit 0 = true) := by
  intro fuel
  induction fuel with
  | zero =>
    intro _ v _ hj
    obtain ⟨j, hj1, hj2, -⟩ := hj
    omega
  | succ fuel ih =>
    intro hle v hv hj
    rw [rolLoop]
    by_cases hmsb : (v &&& 0x8000000000000000 != 0) = true
    · rw [if_pos hmsb]
      have hb63 : v.testBit 63 = true := by
        have : (0x8000000000000000 : Nat) = 1 <<< 63 := by decide
        rw [this, land_shift_ne_zero] at hmsb
        exact hmsb
      have hrl : rol1 v = ror64 63 v := rol1_eq hv
      have hv2 : ror64 63 v < 2 ^ 64 := ror64_lt 63 v
      have hj2 : ∃ j, 64 - fuel ≤ j ∧ j < 64 ∧
          (ror64 63 v).testBit j = false := by
        obtain ⟨j, hjl, hjh, hjb⟩ := hj
        have hjne : j ≠ 63 := by
          intro hc; rw [hc, hb63] at hjb; exact Bool.noConfusion hjb
        refine ⟨j + 1, by omega, by omega, ?_⟩
        rw [testBit_ror64 hv (by omega) (by omega)]
        have : (j + 1 + 63) % 64 = j := by omega
        rw [this]
        exact hjb
      obtain ⟨k, hk, hres, h63, h0⟩ := ih (by omega) (ror64 63 v) hv2 hj2
      rw [ror64_ror64 hv hk (by omega)] at hres h63 h0
      refine ⟨(k + 63) % 64, Nat.mod_lt _ (by omega), by rw [hrl, hres],
        h63, ?_⟩
      intro hb0
      apply h0
      rw [testBit_ror64 hv (by omega) (by omega)]
      simpa using hb63
    · rw [if_neg hmsb]
      have hb63 : v.testBit 63 = false := by
        have heq : (0x8000000000000000 : Nat) = 1 <<< 63 := by decide
        have := land_shift_ne_zero v 63
        rw [← heq] at this
        rw [← this]
        simpa using hmsb
      exact ⟨0, by omega, by rw [ror64_zero hv],
        by rw [ror64_zero hv]; exact hb63,
        by intro hb0; rw [ror64_zero hv]; exact hb0⟩

lemma onesLoop_ok : ∀ fuel v start,
    (∃ j, start ≤ j ∧ j < start + fuel ∧ v.testBit j = false) →
    ∃ m, onesLoop fuel v start = some m ∧ start ≤ m ∧
      (∀ i, start ≤ i → i < m → v.testBit i = true) ∧
      v.testBit m = false := by
  intro fuel
  induction fuel with
  | zero =>
    intro v start hj
    obtain ⟨j, hj1, hj2, -⟩ := hj
    omega
  | succ fuel ih =>
    intro v start hj
    rw [onesLoop]
    by_cases hb : (v &&& (1 <<< start) != 0) = true
    · rw [if_pos hb]
      rw [land_shift_ne_zero] at hb
      have hj2 : ∃ j, start + 1 ≤ j ∧ j < start + 1 + fuel ∧
          v.testBit j = false := by
        obtain ⟨j, hjl, hjh, hjb⟩ := hj
        have : j ≠ start := by
          intro hc; rw [hc, hb] at hjb; exact Bool.noConfusion hjb
        exact ⟨j, by omega, by omega, hjb⟩
      obtain ⟨m, hres, hml, hint, hstop⟩ := ih v (start + 1) hj2
      refine ⟨m, hres, by omega, ?_, hstop⟩
      intro i hil hih
      rcases Nat.eq_or_lt_of_le hil with hc | hc
      · rw [← hc]; exact hb
      · exact hint i (by omega) hih
    · rw [if_neg hb]
      rw [land_shift_ne_zero] at hb
      refine ⟨start, rfl, le_refl _, ?_, by simpa using hb⟩
      intro i hil hih
      omega

lemma zeroesLoop_ok : ∀ fuel v start, start ≤ 64 → 64 - start < fuel →
    ∃ z, zeroesLoop fuel v start = some z ∧ start ≤ z ∧ z ≤ 64 ∧
      (∀ i, start ≤ i → i < z → v.testBit i = false) ∧
      (z = 64 ∨ v.testBit z = true) := by
  intro fuel
  induction fuel with
  | zero => intro v start _ hlt; omega
  | succ fuel ih =>
    intro v start hs64 hlt
    rw [zeroesLoop]
    by_cases hc : (start < 64 && v &&& (1 <<< start) == 0) = true
    · rw [if_pos hc]
      rw [Bool.and_eq_true] at hc
      obtain ⟨hc1, hc2⟩ := hc
      have hblt : start < 64 := by simpa using hc1
      have hbit : v.testBit start = false := by
        have := land_shift_ne_zero v start
        rw [← this]
        simpa using hc2
      obtain ⟨z, hres, hzl, hz64, hint, hstop⟩ :=
        ih v (start + 1) (by omega) (by omega)
      refine ⟨z, hres, by omega, hz64, ?_, hstop⟩
      intro i hil hih
      rcases Nat.eq_or_lt_of_le hil with hc | hc
      · rw [← hc]; exact hbit
      · exact hint i (by omega) hih
    · rw [if_neg hc]
      refine ⟨start, rfl, le_refl _, hs64, by intro i h1 h2; omega, ?_⟩
      rcases Nat.eq_or_lt_of_le hs64 with h64 | h64
      · exact Or.inl h64
      · right
        rw [Bool.and_eq_true] at hc
        push_neg at hc
        have hne := hc (by simpa using h64)
        have h2 := land_shift_ne_zero v start
        rw [← h2]
        simpa using hne

lemma runsMatchLoop_some {v s run : Nat} :
    ∀ fuel offset, 1 ≤ fuel → 64 ≤ offset + (fuel - 1) * s →
      ∃ b, runsMatchLoop v s run fuel offset = some b := by
  intro fuel
  induction fuel with
  | zero => intro offset h1 _; omega
  | succ fuel ih =>
    intro offset _ hcov
    rw [runsMatchLoop]
    by_cases ho : offset < 64
    · rw [if_pos ho]
      by_cases hblk : ((v >>> offset) &&& ((1 <<< s) - 1) != run) = true
      · rw [if_pos hblk]; exact ⟨false, rfl⟩
      · rw [if_neg hblk]
        have hfuel : 1 ≤ fuel := by
          rcases Nat.eq_zero_or_pos fuel with hf | hf
          · subst hf; simp at hcov; omega
          · exact hf
        apply ih (offset + s) hfuel
        have hmul : (fuel + 1 - 1) * s = s + (fuel - 1) * s := by
          cases fuel with
          | zero => omega
          | succ f =>
            have h1 : f + 1 + 1 - 1 = f + 1 := rfl
            have h2 : f + 1 - 1 = f := rfl
            rw [h1, h2, Nat.succ_mul]
            ring
        omega
    · rw [if_neg ho]
      exact ⟨true, rfl⟩

lemma runsMatchLoop_true_iff {v s run : Nat} :
    ∀ fuel offset b, runsMatchLoop v s run fuel offset = some b →
      (b = true ↔ ∀ k, offset + k * s < 64 →
        (v >>> (offset + k * s)) &&& ((1 <<< s) - 1) = run) := by
  intro fuel
  induction fuel with
  | zero => intro offset b h; exact Option.noConfusion h
  | succ fuel ih =>
    intro offset b h
    rw [runsMatchLoop] at h
    by_cases ho : offset < 64
    · rw [if_pos ho] at h
      by_cases hblk : ((v >>> offset) &&& ((1 <<< s) - 1) != run) = true
      · rw [if_pos hblk] at h
        cases h
        simp only [Bool.false_eq_true, false_iff]
        intro hall
        have h0 := hall 0 (by simpa using ho)
        rw [Nat.mul_comm] at h0
        simp only [Nat.mul_zero, Nat.add_zero] at h0
        rw [h0] at hblk
        simp at hblk
      · rw [if_neg hblk] at h
        have hmatch : (v >>> offset) &&& ((1 <<< s) - 1) = run := by
          simpa using hblk
        rw [ih (offset + s) b h]
        constructor
        · intro hall k hk
          cases k with
          | zero => simpa using hmatch
          | succ k =>
            have hb : k.succ * s = k * s + s := Nat.succ_mul k s
            have hb2 : (k + 1) * s = k * s + s := by ring
            have hthis := hall k (by omega)
            have hidx : offset + (k + 1) * s = offset + s + k * s := by omega
            rw [hidx]
            exact hthis
        · intro hall k hk
          have hb : k.succ * s = k * s + s := Nat.succ_mul k s
          have hb2 : (k + 1) * s = k * s + s := by ring
          have hthis := hall (k + 1) (by omega)
          have hidx : offset + s + k * s = offset + (k + 1) * s := by omega
          rw [hidx]
          exact hthis
    · rw [if_neg ho] at h
      cases h
      simp only [true_iff]
      intro k hk
      omega

lemma testBit_add_mul_two_pow {a b s : Nat} (ha : a < 2 ^ s) (i : Nat) :
    (a + b * 2 ^ s).testBit i =
      if i < s then a.testBit i else b.testBit (i - s) := by
  have hmod : (a + b * 2 ^ s) % 2 ^ s = a := by
    rw [Nat.add_mul_mod_self_right, Nat.mod_eq_of_lt ha]
  have hdiv : (a + b * 2 ^ s) / 2 ^ s = b := by
    rw [Nat.add_mul_div_right _ _ (Nat.two_pow_pos s), Nat.div_eq_of_lt ha,
      Nat.zero_add]
  have h2 : (a + b * 2 ^ s) >>> s = b := by
    rw [Nat.shiftRight_eq_div_pow]
    exact hdiv
  by_cases hi : i < s
  · rw [if_pos hi]
    have h := Nat.testBit_mod_two_pow (a + b * 2 ^ s) s i
    rw [hmod] at h
    rw [h]
    simp [hi]
  · rw [if_neg hi]
    calc (a + b * 2 ^ s).testBit i
        = (a + b * 2 ^ s).testBit (s + (i - s)) := by congr 1; omega
      _ = ((a + b * 2 ^ s) >>> s).testBit (i - s) := by
          rw [Nat.testBit_shiftRight]
      _ = b.testBit (i - s) := by rw [h2]

lemma repBlock_lt {block s : Nat} (hb : block < 2 ^ s) :
    ∀ n, repBlock n block s < 2 ^ (n * s) := by
  intro n
  induction n with
  | zero => rw [repBlock]; simpa using Nat.one_pos
  | succ n ih =>
    rw [repBlock]
    have h1 : (n + 1) * s = n * s + s := Nat.succ_mul n s
    rw [h1, pow_add]
    have h2 : repBlock n block s * 2 ^ s ≤ (2 ^ (n * s) - 1) * 2 ^ s :=
      Nat.mul_le_mul_right _ (by omega)
    have h3 : 0 < 2 ^ (n * s) := Nat.two_pow_pos _
    have h5 : (2 ^ (n * s) - 1) * 2 ^ s =
        2 ^ (n * s) * 2 ^ s - 1 * 2 ^ s := Nat.sub_mul _ _ _
    have h6 : 2 ^ s ≤ 2 ^ (n * s) * 2 ^ s := Nat.le_mul_of_pos_left _ h3
    omega

lemma testBit_repBlock {block s : Nat} (hb : block < 2 ^ s) :
    ∀ n i, (repBlock n block s).testBit i =
      (decide (i < n * s) && block.testBit (i % s)) := by
  intro n
  induction n with
  | zero =>
    intro i
    rw [repBlock]
    simp
  | succ n ih =>
    intro i
    rw [repBlock, testBit_add_mul_two_pow hb]
    by_cases hi : i < s
    · rw [if_pos hi]
      have h1 : i % s = i := Nat.mod_eq_of_lt hi
      have h2 : i < (n + 1) * s := by
        have h7 : (n + 1) * s = n * s + s := by ring
        omega
      simp [h1, h2]
    · rw [if_neg hi, ih]
      have h1 : (i - s) % s = i % s := by
        rcases Nat.eq_zero_or_pos s with hs0 | hs0
        · subst hs0; simp
        · have hsplit : i = s + (i - s) := by omega
          conv_rhs => rw [hsplit]
          rw [Nat.add_mod_left]
      have h2 : decide (i - s < n * s) = decide (i < (n + 1) * s) := by
        have h7 : (n + 1) * s = n * s + s := by ring
        have h8 : n.succ * s = n * s + s := Nat.succ_mul n s
        simp only [decide_eq_decide]
        omega
      rw [h1, h2]

lemma tile_lt {s Y : Nat} (hdvd : s ∣ 64) (hs0 : 0 < s) (hY : Y ≤ s) :
    tile s Y < 2 ^ 64 := by
  rw [tile]
  have hb : 2 ^ Y - 1 < 2 ^ s := by
    have h1 : (2 : Nat) ^ Y ≤ 2 ^ s := Nat.pow_le_pow_right (by omega) hY
    have h2 : 0 < (2 : Nat) ^ Y := Nat.two_pow_pos _
    omega
  have := repBlock_lt hb (64 / s)
  rwa [Nat.div_mul_cancel hdvd] at this

lemma testBit_tile {s Y : Nat} (hdvd : s ∣ 64) (hs0 : 0 < s)
    (hY : Y ≤ s) (i : Nat) :
    (tile s Y).testBit i = (decide (i < 64) && decide (i % s < Y)) := by
  rw [tile]
  have hb : 2 ^ Y - 1 < 2 ^ s := by
    have h1 : (2 : Nat) ^ Y ≤ 2 ^ s := Nat.pow_le_pow_right (by omega) hY
    have h2 : 0 < (2 : Nat) ^ Y := Nat.two_pow_pos _
    omega
  rw [testBit_repBlock hb, Nat.div_mul_cancel hdvd,
    Nat.testBit_two_pow_sub_one]

lemma ror64_tile_multiple {s Y r : Nat} (hdvd : s ∣ 64) (hs0 : 0 < s)
    (hY : Y ≤ s) (hr : r < 64) (hrs : s ∣ r) :
    ror64 r (tile s Y) = tile s Y := by
  apply ext64 (ror64_lt _ _) (tile_lt hdvd hs0 hY)
  intro i hi
  rw [testBit_ror64 (tile_lt hdvd hs0 hY) hr hi,
    testBit_tile hdvd hs0 hY, testBit_tile hdvd hs0 hY]
  have h1 : (i + r) % 64 < 64 := Nat.mod_lt _ (by omega)
  have h2 : (i + r) % 64 % s = (i + r) % s :=
    Nat.mod_mod_of_dvd _ hdvd
  obtain ⟨t, rfl⟩ := hrs
  have h3 : (i + s * t) % s = i % s := Nat.add_mul_mod_self_left i s t
  simp [h1, h2, h3, hi]

lemma repBlock_block {n s run : Nat} (hrun : run < 2 ^ s) (hs0 : 0 < s)
    {k : Nat} (hk : k < n) :
    ((repBlock n run s) >>> (k * s)) % 2 ^ s = run := by
  apply Nat.eq_of_testBit_eq
  intro i
  rw [Nat.testBit_mod_two_pow, Nat.testBit_shiftRight,
    testBit_repBlock hrun]
  by_cases hi : i < s
  · have h1 : (k * s + i) % s = i := by
      rw [Nat.add_comm, Nat.add_mul_mod_self_right, Nat.mod_eq_of_lt hi]
    have h3 : (k + 1) * s ≤ n * s := Nat.mul_le_mul_right s (by omega)
    have h4 : (k + 1) * s = k * s + s := Nat.succ_mul k s
    have h2 : k * s + i < n * s := by omega
    simp [hi, h1, h2]
  · have h5 : run.testBit i = false :=
      Nat.testBit_lt_two_pow
        (lt_of_lt_of_le hrun (Nat.pow_le_pow_right (by omega) (by omega)))
    simp [hi, h5]

lemma blocks_eq_repBlock {s : Nat} (hdvd : s ∣ 64) (hs0 : 0 < s)
    {v run : Nat} (hv : v < 2 ^ 64) (hrun : run < 2 ^ s)
    (hall : ∀ k, k * s < 64 → (v >>> (k * s)) % 2 ^ s = run) :
    v = repBlock (64 / s) run s := by
  have hrep : repBlock (64 / s) run s < 2 ^ 64 := by
    have := repBlock_lt hrun (64 / s)
    rwa [Nat.div_mul_cancel hdvd] at this
  apply ext64 hv hrep
  intro i hi
  rw [testBit_repBlock hrun, Nat.div_mul_cancel hdvd]
  have hj : i % s < s := Nat.mod_lt _ hs0
  have hmul : i / s * s ≤ i := Nat.div_mul_le_self i s
  have hk := hall (i / s) (by omega)
  have hsum : i / s * s + i % s = i := Nat.div_add_mod' i s
  have hbit : run.testBit (i % s) = v.testBit i := by
    rw [← hk, Nat.testBit_mod_two_pow, Nat.testBit_shiftRight, hsum]
    simp [hj]
  rw [hbit]
  simp [hi]

lemma dup64_lt {value : Nat} (hv : value < 2 ^ 64) (size : Size) :
    dup64 value size < 2 ^ 64 := by
  rw [dup64]
  by_cases h : (size == Size.Size32) = true
  · rw [if_pos h]
    have h1 : (value <<< 32) &&& mask64 < 2 ^ 64 :=
      Nat.and_lt_two_pow _ (by decide)
    have h2 : value &&& 0xFFFFFFFF < 2 ^ 64 :=
      Nat.and_lt_two_pow _ (by decide)
    exact Nat.or_lt_two_pow h1 h2
  · rw [if_neg h]
    exact hv

lemma mod_two_pow_eq_ones {v ones z : Nat} (h1 : ones ≤ z)
    (hlo : ∀ i, i < ones → v.testBit i = true)
    (hhi : ∀ i, ones ≤ i → i < z → v.testBit i = false) :
    v % 2 ^ z = 2 ^ ones - 1 := by
  apply Nat.eq_of_testBit_eq
  intro i
  rw [Nat.testBit_mod_two_pow, Nat.testBit_two_pow_sub_one]
  by_cases hio : i < ones
  · have hz : i < z := by omega
    simp [hio, hz, hlo i hio]
  · by_cases hiz : i < z
    · simp [hiz, hio, hhi i (by omega) hiz]
    · simp [hiz, hio]

lemma sdvd_of_case {s : Nat}
    (hs : s = 2 ∨ s = 4 ∨ s = 8 ∨ s = 16 ∨ s = 32 ∨ s = 64) :
    s ∣ 64 ∧ 0 < s ∧ s ≤ 64 := by
  rcases hs with rfl | rfl | rfl | rfl | rfl | rfl <;>
    exact ⟨by decide, by decide, by decide⟩

lemma rmod_zero {s R Y : Nat}
    (hs : s = 2 ∨ s = 4 ∨ s = 8 ∨ s = 16 ∨ s = 32 ∨ s = 64)
    (hR : R < 64) (hY1 : 0 < Y) (hY2 : Y < s)
    (h1 : R % s < Y) (h2 : ¬((63 + R) % s < Y)) : R % s = 0 := by
  rcases hs with rfl | rfl | rfl | rfl | rfl | rfl <;> omega

lemma spec_ne {v : Nat} (hv : v < 2 ^ 64) (hs : SpecLogicalImmediate v) :
    v ≠ 0 ∧ v ≠ mask64 := by
  obtain ⟨s, hsmem, Y, hYmem, hYpos, r, hrmem, hveq⟩ := hs
  rw [List.mem_range] at hYmem hrmem
  have hscase : s = 2 ∨ s = 4 ∨ s = 8 ∨ s = 16 ∨ s = 32 ∨ s = 64 := by
    simpa using hsmem
  obtain ⟨hdvd, hs0, hs64⟩ := sdvd_of_case hscase
  have hYle : Y ≤ s := le_of_lt hYmem
  have htl := tile_lt hdvd hs0 hYle
  have hbit0 : (tile s Y).testBit 0 = true := by
    rw [testBit_tile hdvd hs0 hYle]
    simp [Nat.zero_mod, hYpos]
  have hbitY : (tile s Y).testBit Y = false := by
    rw [testBit_tile hdvd hs0 hYle]
    have h1 : Y % s = Y := Nat.mod_eq_of_lt hYmem
    rw [h1]
    simp
  constructor
  · intro h0
    have hi : (64 - r) % 64 < 64 := Nat.mod_lt _ (by omega)
    have hb : v.testBit ((64 - r) % 64) = true := by
      rw [hveq, testBit_ror64 htl hrmem hi]
      have hmod : ((64 - r) % 64 + r) % 64 = 0 := by omega
      rw [hmod, hbit0]
    rw [h0] at hb
    simp at hb
  · intro hm
    have hi2 : (Y + 64 - r) % 64 < 64 := Nat.mod_lt _ (by omega)
    have hb : v.testBit ((Y + 64 - r) % 64) = false := by
      rw [hveq, testBit_ror64 htl hrmem hi2]
      have hmod : ((Y + 64 - r) % 64 + r) % 64 = Y := by omega
      rw [hmod, hbitY]
    rw [hm, mask64_testBit] at hb
    simp [hi2] at hb

lemma exists_false_bit {v : Nat} (hv : v < 2 ^ 64) (hne : v ≠ mask64) :
    ∃ j, j < 64 ∧ v.testBit j = false := by
  by_contra h
  push_neg at h
  apply hne
  apply ext64 hv (by decide)
  intro i hi
  rw [mask64_testBit]
  have h2 := h i hi
  simp only [Bool.not_eq_false] at h2
  simp [hi, h2]

lemma spec_canonical {w K : Nat} (hw : w < 2 ^ 64) (hK : K < 64)
    (hspec : SpecLogicalImmediate w)
    (h0 : (ror64 K w).testBit 0 = true)
    (h63 : (ror64 K w).testBit 63 = false) :
    ∃ s, (s = 2 ∨ s = 4 ∨ s = 8 ∨ s = 16 ∨ s = 32 ∨ s = 64) ∧
      ∃ Y, 0 < Y ∧ Y < s ∧ ror64 K w = tile s Y := by
  obtain ⟨s, hsmem, Y, hYmem, hYpos, r, hrmem, hveq⟩ := hspec
  rw [List.mem_range] at hYmem hrmem
  have hscase : s = 2 ∨ s = 4 ∨ s = 8 ∨ s = 16 ∨ s = 32 ∨ s = 64 := by
    simpa using hsmem
  obtain ⟨hdvd, hs0, hs64⟩ := sdvd_of_case hscase
  have hYle : Y ≤ s := le_of_lt hYmem
  have htl := tile_lt hdvd hs0 hYle
  have hRlt : (K + r) % 64 < 64 := Nat.mod_lt _ (by omega)
  have hcomp : ror64 K w = ror64 ((K + r) % 64) (tile s Y) := by
    rw [hveq, ror64_ror64 htl hK hrmem]
  rw [hcomp] at h0 h63
  rw [testBit_ror64 htl hRlt (by omega)] at h0
  rw [testBit_ror64 htl hRlt (by omega)] at h63
  have e0 : (0 + (K + r) % 64) % 64 = (K + r) % 64 := by omega
  have e63 : (63 + (K + r) % 64) % 64 < 64 := by omega
  rw [e0, testBit_tile hdvd hs0 hYle] at h0
  rw [testBit_tile hdvd hs0 hYle] at h63
  simp only [Bool.and_eq_true, decide_eq_true_eq] at h0
  have h0' : (K + r) % 64 % s < Y := h0.2
  have hMs : (63 + (K + r) % 64) % 64 % s = (63 + (K + r) % 64) % s :=
    Nat.mod_mod_of_dvd _ hdvd
  rw [hMs] at h63
  have h63' : ¬((63 + (K + r) % 64) % s < Y) := by
    intro hc
    rw [Bool.and_eq_false_iff] at h63
    rcases h63 with h | h
    · simp at h
      omega
    · simp at h
      omega
  have hmod0 : (K + r) % 64 % s = 0 :=
    rmod_zero hscase hRlt hYpos hYmem h0' h63'
  have hfix := ror64_tile_multiple hdvd hs0 hYle hRlt
    (Nat.dvd_of_mod_eq_zero hmod0)
  exact ⟨s, hscase, Y, hYpos, hYmem, by rw [hcomp, hfix]⟩

lemma loops_identify_tile {s Y ones z : Nat}
    (hscase : s = 2 ∨ s = 4 ∨ s = 8 ∨ s = 16 ∨ s = 32 ∨ s = 64)
    (hY0 : 0 < Y) (hYs : Y < s)
    (honesz : ones < z) (hz64 : z ≤ 64)
    (hlo : ∀ i, i < ones → (tile s Y).testBit i = true)
    (hmid : (tile s Y).testBit ones = false)
    (hhi : ∀ i, ones ≤ i → i < z → (tile s Y).testBit i = false)
    (hend : z = 64 ∨ (tile s Y).testBit z = true) :
    ones = Y ∧ z = s := by
  obtain ⟨hdvd, hs0, hs64⟩ := sdvd_of_case hscase
  have hYle : Y ≤ s := le_of_lt hYs
  have htb := testBit_tile hdvd hs0 hYle
  have hones : ones = Y := by
    rcases Nat.lt_trichotomy ones Y with h | h | h
    · exfalso
      rw [htb ones] at hmid
      have h1 : ones % s = ones := Nat.mod_eq_of_lt (by omega)
      rw [h1] at hmid
      simp [show ones < 64 by omega, h] at hmid
    · exact h
    · exfalso
      have hY := hlo Y h
      rw [htb Y] at hY
      have h1 : Y % s = Y := Nat.mod_eq_of_lt hYs
      rw [h1] at hY
      simp at hY
  subst hones
  refine ⟨rfl, ?_⟩
  rcases Nat.lt_trichotomy z s with h | h | h
  · exfalso
    have hzne : z ≠ 64 := by omega
    rcases hend with h64 | hbit
    · exact hzne h64
    · rw [htb z] at hbit
      have h1 : z % s = z := Nat.mod_eq_of_lt h
      rw [h1] at hbit
      simp [show z < 64 by omega] at hbit
      omega
  · exact h
  · exfalso
    rcases Nat.eq_or_lt_of_le hs64 with hseq | hslt
    · omega
    · have hbs := hhi s (by omega) h
      rw [htb s] at hbs
      simp [Nat.mod_self, hslt, hY0] at hbs

lemma tile_64 (ones : Nat) : tile 64 ones = 2 ^ ones - 1 := by
  have h : (64 : Nat) / 64 = 1 := by norm_num
  rw [tile, h, repBlock, repBlock]
  simp

lemma spec_of_tile {w K s Y : Nat} (hw : w < 2 ^ 64) (hK : K < 64)
    (hscase : s = 2 ∨ s = 4 ∨ s = 8 ∨ s = 16 ∨ s = 32 ∨ s = 64)
    (hY0 : 0 < Y) (hYs : Y < s)
    (heq : ror64 K w = tile s Y) : SpecLogicalImmediate w := by
  have hback : ror64 ((64 - K) % 64) (ror64 K w) = w := ror64_inv hw hK
  unfold SpecLogicalImmediate
  refine ⟨s, ?_, Y, List.mem_range.mpr hYs, hY0, (64 - K) % 64,
    List.mem_range.mpr (Nat.mod_lt _ (by omega)), ?_⟩
  · rcases hscase with rfl | rfl | rfl | rfl | rfl | rfl <;> decide
  · rw [← hback, heq]

/-- The fuel-free characterisation of `logicalCore`: on any 64-bit
word it returns exactly the decision of the declarative bitmask
pattern `SpecLogicalImmediate`. -/
lemma logicalCore_eq {w : Nat} (hw : w < 2 ^ 64) :
    logicalCore w = some (decide (SpecLogicalImmediate w)) := by
  rw [logicalCore]
  by_cases htriv : (w == 0 || w == mask64) = true
  · rw [if_pos htriv]
    have hne : ¬SpecLogicalImmediate w := by
      intro hs
      obtain ⟨h1, h2⟩ := spec_ne hw hs
      rcases Bool.or_eq_true_iff.mp htriv with h | h
      · exact h1 (by simpa using h)
      · exact h2 (by simpa using h)
    simp [hne]
  · rw [if_neg htriv]
    have hw0 : w ≠ 0 := by
      intro h; apply htriv; simp [h]
    have hwm : w ≠ mask64 := by
      intro h; apply htriv; simp [h]
    have hmodne : w % 2 ^ 64 ≠ 0 := by
      rw [Nat.mod_eq_of_lt hw]; exact hw0
    obtain ⟨k1, hk1, hror, hbit0⟩ := rorLoop_ok 64 (le_refl _) w hw hmodne
    have hv1lt : ror64 k1 w < 2 ^ 64 := ror64_lt _ _
    have hv1ne : ∃ j, 64 - 64 ≤ j ∧ j < 64 ∧
        (ror64 k1 w).testBit j = false := by
      obtain ⟨j, hj, hjb⟩ := exists_false_bit hw hwm
      refine ⟨(j + 64 - k1) % 64, by omega, Nat.mod_lt _ (by omega), ?_⟩
      rw [testBit_ror64 hw (by omega) (Nat.mod_lt _ (by omega))]
      have he : ((j + 64 - k1) % 64 + k1) % 64 = j := by omega
      rw [he]; exact hjb
    obtain ⟨k2, hk2, hrol, hbit63, hbit0p⟩ :=
      rolLoop_ok 64 (le_refl _) (ror64 k1 w) hv1lt hv1ne
    have hcomp : ror64 k2 (ror64 k1 w) = ror64 ((k2 + k1) % 64) w :=
      ror64_ror64 hw (by omega) (by omega)
    set K := (k2 + k1) % 64 with hKdef
    have hK : K < 64 := Nat.mod_lt _ (by omega)
    have hrol2 : rolLoop 64 (ror64 k1 w) = some (ror64 K w) := by
      rw [hrol, hcomp]
    have hb0 : (ror64 K w).testBit 0 = true := by
      rw [← hcomp]; exact hbit0p hbit0
    have hb63 : (ror64 K w).testBit 63 = false := by
      rw [← hcomp]; exact hbit63
    have hv2lt : ror64 K w < 2 ^ 64 := ror64_lt _ _
    obtain ⟨ones, hocomp, hole, holo, hostop⟩ :=
      onesLoop_ok 64 (ror64 K w) 1 ⟨63, by omega, by omega, hb63⟩
    have hlo : ∀ i, i < ones → (ror64 K w).testBit i = true := by
      intro i hi
      rcases Nat.eq_zero_or_pos i with rfl | hpos
      · exact hb0
      · exact holo i hpos hi
    have hones63 : ones ≤ 63 := by
      by_contra hc
      push_neg at hc
      have h1 := hlo 63 (by omega)
      rw [h1] at hb63
      exact Bool.noConfusion hb63
    obtain ⟨z, hzcomp, hzlo, hz64, hzmid, hzend⟩ :=
      zeroesLoop_ok 64 (ror64 K w) ones (by omega) (by omega)
    have honesz : ones < z := by
      rcases Nat.eq_or_lt_of_le hzlo with heq | h
      · exfalso
        rcases hzend with h64 | hbt
        · omega
        · rw [← heq, hostop] at hbt
          exact Bool.noConfusion hbt
      · exact h
    rw [hror]
    simp only [Bind.bind, Option.bind]
    rw [hrol2]
    simp only [Option.bind]
    rw [hocomp]
    simp only [Option.bind]
    rw [hzcomp]
    simp only [Option.bind]
    have hrs : ones + (z - ones) = z := by omega
    rw [hrs]
    by_cases hz64eq : z = 64
    · subst hz64eq
      rw [if_pos (by simp)]
      have hv2eq : ror64 K w = tile 64 ones := by
        rw [tile_64]
        apply Nat.eq_of_testBit_eq
        intro i
        rw [Nat.testBit_two_pow_sub_one]
        by_cases hi : i < ones
        · simp [hi, hlo i hi]
        · by_cases hi64 : i < 64
          · simp [hi, hzmid i (by omega) (by omega)]
          · have hzb : (ror64 K w).testBit i = false :=
              testBit_ge64 hv2lt (by omega)
            simp [hi, hzb]
      have hspec : SpecLogicalImmediate w :=
        spec_of_tile hw hK (by omega) (by omega) (by omega) hv2eq
      simp [hspec]
    · rw [if_neg (by simpa using hz64eq)]
      by_cases hzset : z = 2 ∨ z = 4 ∨ z = 8 ∨ z = 16 ∨ z = 32
      · have hzcase6 : z = 2 ∨ z = 4 ∨ z = 8 ∨ z = 16 ∨ z = 32 ∨
            z = 64 := by tauto
        obtain ⟨hdvdz, hz0, hzle⟩ := sdvd_of_case hzcase6
        have hcond : (z != 2 && z != 4 && z != 8 && z != 16 && z != 32)
            = false := by
          rcases hzset with rfl | rfl | rfl | rfl | rfl <;> decide
        rw [if_neg (by simp [hcond])]
        have hrun : ror64 K w &&& ((1 <<< z) - 1) = 2 ^ ones - 1 := by
          rw [land_shift_mask]
          exact mod_two_pow_eq_ones (by omega) hlo hzmid
        have hrunlt : 2 ^ ones - 1 < 2 ^ z := by
          have h1 : (2 : Nat) ^ ones ≤ 2 ^ z :=
            Nat.pow_le_pow_right (by omega) (by omega)
          have h2 : 0 < (2 : Nat) ^ ones := Nat.two_pow_pos _
          omega
        rw [hrun]
        obtain ⟨b, hbres⟩ :=
          @runsMatchLoop_some (ror64 K w) z
            (2 ^ ones - 1) 32 z (by omega) (by omega)
        rw [hbres]
        have hiff := @runsMatchLoop_true_iff (ror64 K w) z
          (2 ^ ones - 1) 32 z b hbres
        have hforward : b = true → SpecLogicalImmediate w := by
          intro hb
          have hall := hiff.mp hb
          have hall' : ∀ k, k * z < 64 →
              (ror64 K w >>> (k * z)) % 2 ^ z = 2 ^ ones - 1 := by
            intro k hk
            cases k with
            | zero =>
              simp only [Nat.zero_mul, Nat.shiftRight_zero]
              exact mod_two_pow_eq_ones (by omega) hlo hzmid
            | succ k =>
              have hb2 : k.succ * z = k * z + z := Nat.succ_mul k z
              have hb3 : (k + 1) * z = k * z + z := by ring
              have h1 := hall k (by omega)
              rw [land_shift_mask] at h1
              have hidx : z + k * z = (k + 1) * z := by omega
              rw [← h1, hidx]
          have hv2 : ror64 K w = tile z ones := by
            rw [tile]
            exact blocks_eq_repBlock hdvdz hz0 hv2lt hrunlt hall'
          exact spec_of_tile hw hK hzcase6 (by omega) honesz hv2
        have hback : SpecLogicalImmediate w → b = true := by
          intro hs
          obtain ⟨s', hscase', Y', hY0', hYs', hcan⟩ :=
            spec_canonical hw hK hs hb0 hb63
          obtain ⟨hones', hz'⟩ := loops_identify_tile hscase' hY0' hYs'
            honesz hz64 (by rw [← hcan]; exact hlo)
            (by rw [← hcan]; exact hostop)
            (by rw [← hcan]; exact hzmid)
            (by rw [← hcan]; exact hzend)
          have hv2 : ror64 K w = tile z ones := by
            rw [hcan, hones', hz']
          rw [hiff]
          intro k hk
          have hb2 : k.succ * z = k * z + z := Nat.succ_mul k z
          have hb3 : (k + 1) * z = k * z + z := by ring
          have hkn : k + 1 < 64 / z := by
            have h64 : 64 / z * z = 64 := Nat.div_mul_cancel hdvdz
            have h2 : (k + 1) * z < 64 / z * z := by omega
            exact Nat.lt_of_mul_lt_mul_right h2
          have hblk := @repBlock_block (64 / z) z
            (2 ^ ones - 1) hrunlt hz0 (k + 1) hkn
          rw [land_shift_mask]
          have hidx : z + k * z = (k + 1) * z := by omega
          rw [hidx, hv2, tile]
          exact hblk
        cases b with
        | false =>
          have hnspec : ¬SpecLogicalImmediate w := by
            intro hs
            exact Bool.noConfusion (hback hs)
          simp [hnspec]
        | true =>
          simp [hforward rfl]
      · have hcond : (z != 2 && z != 4 && z != 8 && z != 16 && z != 32)
            = true := by
          simp only [not_or] at hzset
          obtain ⟨h2, h4, h8, h16, h32⟩ := hzset
          simp [h2, h4, h8, h16, h32]
        rw [if_pos (by simp [hcond])]
        have hnspec : ¬SpecLogicalImmediate w := by
          intro hs
          obtain ⟨s', hscase', Y', hY0', hYs', hcan⟩ :=
            spec_canonical hw hK hs hb0 hb63
          obtain ⟨hones', hz'⟩ := loops_identify_tile hscase' hY0' hYs'
            honesz hz64 (by rw [← hcan]; exact hlo)
            (by rw [← hcan]; exact hostop)
            (by rw [← hcan]; exact hzmid)
            (by rw [← hcan]; exact hzend)
          rw [← hz'] at hscase'
          tauto
        simp [hnspec]

/-- C5: `Platform_ARMv8a::validateImmediate(type, value, size)` for
`type` in `{ANDI, ORI, XORI}` returns true if and only if `value`
(with a 32-bit value duplicated into both halves of 64 bits when
`size` is `Size32`) can be obtained by rotating a 64-bit word tiled
with copies of a pattern of `Y > 0` consecutive ones followed by
`X > 0` consecutive zeros where `X + Y` is a power of two; in
particular the all-zeroes and all-ones words are rejected (they do
not satisfy `SpecLogicalImmediate`, by `spec_ne`). -/
theorem claim_C5_bitmask_logical_immediates (t : InsnType) (value : Nat)
    (size : Size)
    (ht : t = InsnType.ANDI ∨ t = InsnType.ORI ∨ t = InsnType.XORI)
    (hv : value < 2 ^ 64) :
    Platform_ARMv8a.validateImmediate t value size =
      some (decide (SpecLogicalImmediate (dup64 value size))) := by
  have hd := dup64_lt hv size
  rcases ht with rfl | rfl | rfl <;> exact logicalCore_eq hd

theorem claim_C5_witness :
    ((InsnType.ANDI = InsnType.ANDI ∨ InsnType.ANDI = InsnType.ORI ∨
        InsnType.ANDI = InsnType.XORI) ∧
      (0x5555555555555555 : Nat) < 2 ^ 64) ∧
    Platform_ARMv8a.validateImmediate InsnType.ANDI 0x5555555555555555
        Size.Size64 =
      some (decide (SpecLogicalImmediate
        (dup64 0x5555555555555555 Size.Size64))) :=
  ⟨⟨Or.inl rfl, by decide⟩,
    claim_C5_bitmask_logical_immediates InsnType.ANDI 0x5555555555555555
      Size.Size64 (Or.inl rfl) (by decide)⟩
